import Mathlib

/-!
# Verification of the addrslips persistence engine

A shallow embedding of the database/repository layer of the addrslips
project (`src/core/db/`), together with proofs of the specified
properties.  SQL statements are modelled as pure functions over an
explicit store state; `async` plays no role since every repository
operation runs to completion on one connection.  Fallible operations
return `Except`/`Option`; a Rust panic is modelled as `Option.none`.

Conventions used throughout:
* `i64` values are modelled as `Int`.
* `u8`/`u16`/`u32` values are modelled as `Nat`; where the source
  performs a wrapping `as` cast when reading a column back, the model
  applies `% 2^width` explicitly.
* The `x`/`y` coordinate columns are read back in the source with
  `try_into().expect("... bounded by database constraint")`, i.e. the
  schema guarantees the stored value is in the `u32` range; those
  columns are therefore modelled as `Nat` and the i64 round trip is the
  identity.
* `f64` confidence values are only ever copied by the code modelled
  here (never computed with), so they are represented by an opaque-ish
  carrier with decidable equality (`Int`).
-/

namespace Addrslips

/-- `f64` confidence scores: the repository only stores and returns
them, so any carrier with decidable equality is a faithful model. -/
abbrev Confidence := Int

/-- 2-D point (`Point`, core/db/model.rs); both coordinates are `u32`. -/
structure Point where
  x : Nat
  y : Nat
deriving DecidableEq, Repr

/-- RGB color (`Color`, core/db/model.rs); the fields are `u8`. -/
structure Color where
  r : Nat
  g : Nat
  b : Nat
deriving DecidableEq, Repr

/-- `impl From<Color> for i64` (core/db/model.rs):
`((r as i64) << 16) | ((g as i64) << 8) | (b as i64)`.
The computation happens on non-negative values, so it is carried out on
`Nat` and cast into the `i64` model type `Int` at the end. -/
def Color.toI64 (c : Color) : Int :=
  (((c.r <<< 16) ||| (c.g <<< 8)) ||| c.b : Nat)

/-- `impl TryFrom<i64> for Color` (core/db/model.rs, always `Ok`):
`r = ((v >> 16) & 0xFF) as u8` and so on.  The stored color values are
non-negative (they are produced by `Color.toI64`), so the bit
operations are carried out on `v.toNat`. -/
def Color.fromI64 (v : Int) : Color :=
  { r := (v.toNat >>> 16) &&& 0xFF
    g := (v.toNat >>> 8) &&& 0xFF
    b := v.toNat &&& 0xFF }

/-- Area lifecycle state (`AreaState`, core/db/area.rs). -/
inductive AreaState where
  | imported
  | addressesDetected
  | addressesCorrected
  | streetsDetected
  | streetsCorrected
  | addressesAssigned
  | flatsEstimated
  | teamsAssigned
  | complete
deriving DecidableEq, Repr

/-- `impl From<AreaState> for i64` (core/db/area.rs). -/
def AreaState.toI64 : AreaState → Int
  | .imported => 0
  | .addressesDetected => 1
  | .addressesCorrected => 2
  | .streetsDetected => 3
  | .streetsCorrected => 4
  | .addressesAssigned => 5
  | .flatsEstimated => 6
  | .teamsAssigned => 7
  | .complete => 8

/-- Typed errors of the repository layer.  The source returns
`anyhow::Error`; the constructors below model the distinguishable
classes: SQLite constraint violations (foreign-key vs uniqueness),
`fetch_one` finding no row, a failing `TryFrom` conversion, and the
explicit `anyhow!("Area with id {} not found")` of
`BoundAreaRepository::get_area` (carrying the offending id). -/
inductive DbError where
  | foreignKeyViolation
  | uniqueViolation
  | rowNotFound
  | invalidValue (v : Int)
  | areaNotFound (id : Int)
deriving DecidableEq, Repr

/-- `impl TryFrom<i64> for AreaState` (core/db/area.rs): values 0–8 map
to the nine states in order, anything else is an error. -/
def AreaState.tryFromI64 (v : Int) : Except DbError AreaState :=
  if v = 0 then .ok .imported
  else if v = 1 then .ok .addressesDetected
  else if v = 2 then .ok .addressesCorrected
  else if v = 3 then .ok .streetsDetected
  else if v = 4 then .ok .streetsCorrected
  else if v = 5 then .ok .addressesAssigned
  else if v = 6 then .ok .flatsEstimated
  else if v = 7 then .ok .teamsAssigned
  else if v = 8 then .ok .complete
  else .error (.invalidValue v)

/-! ## Archive store: opening a project (`ProjectState::new`, core/db/state.rs)

The tar/zstd and filesystem plumbing is abstracted to the facts the
control flow branches on: whether the project file exists, whether its
parent directory exists, and which of the two expected entries
(`project.db`, `images/`) the unpacked archive contains. -/

/-- The filesystem facts `ProjectState::new` branches on. -/
structure OpenInput where
  /-- `project_file.is_file()` -/
  file_exists : Bool
  /-- `project_file.parent().map(|p| p.is_dir()).unwrap_or(false)` -/
  parent_is_dir : Bool
  /-- the unpacked archive contains the `project.db` file -/
  has_db_file : Bool
  /-- the unpacked archive contains the `images` directory -/
  has_images_dir : Bool
deriving DecidableEq, Repr

/-- Failure classes of `ProjectState::new`. -/
inductive OpenError where
  /-- `bail!("Project file parent does not exist: ...")` -/
  | missingParent
  /-- `bail!("Corrupt project: database exists ... but images dir missing ...")` -/
  | corruptNoImages
  /-- `bail!("Corrupt project: images dir exists ... but database missing ...")` -/
  | corruptNoDb
deriving DecidableEq, Repr

/-- The working-directory layout after a successful open. -/
structure ProjectLayout where
  has_db : Bool
  has_images : Bool
deriving DecidableEq, Repr

/-- `ProjectState::new` (core/db/state.rs, lines 186–271), reduced to
its layout logic: if the project file is absent it is created as an
empty archive (failing when the parent directory does not exist, and
unpacking to nothing); then the `(db_exists, images_exist)` match
either accepts, creates the empty layout, or reports a corrupt
project. -/
def ProjectState.new (inp : OpenInput) : Except OpenError ProjectLayout :=
  if !inp.file_exists && !inp.parent_is_dir then
    .error .missingParent
  else
    -- a freshly created empty archive unpacks to an empty working dir
    let db_exists := inp.file_exists && inp.has_db_file
    let images_exist := inp.file_exists && inp.has_images_dir
    match db_exists, images_exist with
    | true, true => .ok { has_db := true, has_images := true }
    | false, false => .ok { has_db := true, has_images := true }
    | true, false => .error .corruptNoImages
    | false, true => .error .corruptNoDb

/-! ## Image store (`ProjectState::store_area_image`, core/db/state.rs) -/

/-- `OsStr`: a platform string that may or may not be valid UTF-8
(`to_str` returns `None` when it is not). -/
structure OsStr where
  utf8 : Option String
deriving DecidableEq, Repr

/-- A source image path, reduced to what `store_area_image` inspects:
`Path::extension()` (`none` when the path has no extension). -/
structure ImgPath where
  extension : Option OsStr
deriving DecidableEq, Repr

/-- A generated image filename `format!("{}.{}", Uuid::new_v4(), ext)`:
the UUID part followed by the original extension.  UUIDs are modelled
by the index of the `Uuid::new_v4()` call that produced them — distinct
calls yield distinct UUIDs, which is the defining property assumed of
v4 UUID generation. -/
structure ImgFname where
  uuid : Nat
  ext : String
deriving DecidableEq, Repr

/-- The images directory of the working dir plus the UUID supply. -/
structure ImageStore where
  /-- filenames currently present in the `images/` directory -/
  images : List ImgFname
  /-- the next fresh UUID (models `Uuid::new_v4()`) -/
  uuid_counter : Nat
deriving DecidableEq, Repr

/-- `ProjectState::store_area_image` (core/db/state.rs, lines 75–96):
`img_path.extension().and_then(|ext| ext.to_str()).map(|ext_str|
format!("{}.{}", Uuid::new_v4(), ext_str)).expect(...)` followed by the
copy into `images/`.  `none` models the `.expect` panic (no extension,
or an extension that is not valid UTF-8). -/
def ProjectState.store_area_image (st : ImageStore) (img_path : ImgPath) :
    Option (ImgFname × ImageStore) :=
  match img_path.extension.bind (fun ext => ext.utf8) with
  | none => none
  | some ext_str =>
    let img_fname : ImgFname := { uuid := st.uuid_counter, ext := ext_str }
    some (img_fname,
      { images := st.images ++ [img_fname], uuid_counter := st.uuid_counter + 1 })

/-! ## The embedded SQLite store

One row structure per table of the conceptual schema (spec §6); the
migrations themselves are not part of `src/`, so the columns and the
`team_assignment` constraints are modelled from the spec and from how
`core/db/mod.rs` reads and writes them.  Fresh `INTEGER PRIMARY KEY`
row ids are modelled by per-table counters. -/

/-- A row of `area(id, name, color, image_fname, state)`. -/
structure AreaRow where
  id : Int
  name : String
  color : Int
  image_fname : ImgFname
  state : Int
deriving DecidableEq, Repr

/-- A row of `street(id, area_id, name, verified)`. -/
structure StreetRow where
  id : Int
  area_id : Int
  name : Option String
  verified : Int
deriving DecidableEq, Repr

/-- A row of `street_polyline_vertices(street_id, position, x, y)` or
`team_bounds_vertices(team_id, position, x, y)`; `owner_id` is the
street id resp. team id.  The `x`/`y` columns are bounded to the u32
range by the schema (see module comment), hence `Nat`. -/
structure VertexRow where
  owner_id : Int
  position : Nat
  x : Nat
  y : Nat
deriving DecidableEq, Repr

/-- A row of `address(id, area_id, house_number, x, y, confidence,
verified, estimated_flats, circle_radius, street_id)`. -/
structure AddressRow where
  id : Int
  area_id : Int
  house_number : String
  x : Nat
  y : Nat
  confidence : Confidence
  verified : Int
  estimated_flats : Option Int
  circle_radius : Nat
  street_id : Option Int
deriving DecidableEq, Repr

/-- A row of `team(id, area_id, num)`. -/
structure TeamRow where
  id : Int
  area_id : Int
  num : Int
deriving DecidableEq, Repr

/-- A row of `team_assignment(team_id, address_id, area_id)`. -/
structure AssignRow where
  team_id : Int
  address_id : Int
  area_id : Int
deriving DecidableEq, Repr

/-- The embedded store contents plus the fresh-rowid counters. -/
structure Db where
  areas : List AreaRow
  streets : List StreetRow
  street_polyline_vertices : List VertexRow
  addresses : List AddressRow
  teams : List TeamRow
  team_assignment : List AssignRow
  team_bounds_vertices : List VertexRow
  next_area_id : Int
  next_street_id : Int
  next_address_id : Int
  next_team_id : Int
deriving Repr

/-! ## Domain values returned by the repository layer -/

/-- `Team` (core/db/team.rs): `number` is `u16` in the source. -/
structure Team where
  id : Int
  number : Nat
deriving DecidableEq, Repr

/-- `TeamBounds` (core/db/team.rs). -/
structure TeamBounds where
  boundary : List Point
deriving DecidableEq, Repr

/-- `Street` (core/db/street.rs). -/
structure Street where
  id : Int
  name : Option String
  verified : Bool
deriving DecidableEq, Repr

/-- `StreetPolyline` (core/db/street.rs). -/
structure StreetPolyline where
  points : List Point
deriving DecidableEq, Repr

/-- `Area` (core/db/area.rs). -/
structure Area where
  id : Int
  name : String
  color : Color
  state : AreaState
deriving DecidableEq, Repr

/-- `Address`.  The struct declaration lives in the part of
`core/db/address.rs` that is not in this snapshot; its fields are
modelled from how `core/db/mod.rs` constructs it (lines 440–460 etc.)
and from the integration tests: `estimated_flats` is `Option<u16>`,
`circle_radius` is `u32`. -/
structure Address where
  id : Int
  area_id : Int
  house_number : String
  position : Point
  confidence : Confidence
  verified : Bool
  estimated_flats : Option Nat
  circle_radius : Nat
  assigned_street_id : Option Int
deriving DecidableEq, Repr

/-- `NewAddress`.  Modelled from the spec and the integration tests
(`tests/common/fixtures.rs`), the struct declaration being absent from
the snapshot: all caller-supplied `Address` fields, without `id`,
`area_id` and `verified`. -/
structure NewAddress where
  house_number : String
  position : Point
  confidence : Confidence
  estimated_flats : Option Nat
  circle_radius : Nat
  assigned_street_id : Option Int
deriving DecidableEq, Repr

/-- `AddressUpdate`.  Modelled from its use in
`AddressRepository::update_address` (core/db/mod.rs lines 611–684) and
the tests, the declaration being absent from the snapshot: plain fields
are `Option` (absent = leave unchanged, applied via SQL `COALESCE`),
and the nullable fields `estimated_flats` / `street` are doubly
optional (`none` = leave unchanged, `some none` = set to NULL,
`some (some v)` = set to value). -/
structure AddressUpdate where
  house_number : Option String
  position : Option Point
  confidence : Option Confidence
  verified : Option Bool
  circle_radius : Option Nat
  estimated_flats : Option (Option Nat)
  street : Option (Option Street)
deriving DecidableEq, Repr

/-- `NewArea` (core/db/area.rs): the image path reduced to what
`store_area_image` inspects. -/
structure NewArea where
  name : String
  color : Color
  image_path : ImgPath
deriving DecidableEq, Repr

/-- How a Rust `bool` is bound into an SQLite integer column. -/
def boolToI64 (b : Bool) : Int := if b then 1 else 0

/-- Row-to-domain mapping for teams (core/db/mod.rs lines 210–214 and
228–232): `number: record.num as u16` is a wrapping cast. -/
def TeamRow.toTeam (r : TeamRow) : Team :=
  { id := r.id, number := (r.num % 65536).toNat }

/-- Row-to-domain mapping for streets (core/db/mod.rs lines 711–716):
`verified: record.verified != 0`. -/
def StreetRow.toStreet (r : StreetRow) : Street :=
  { id := r.id, name := r.name, verified := r.verified != 0 }

/-- Row-to-domain mapping for addresses (core/db/mod.rs lines 486–506
and analogues): `verified != 0`, `estimated_flats.map(|v| v as u16)`
(wrapping cast), coordinates via the schema-guaranteed `try_into`. -/
def AddressRow.toAddress (r : AddressRow) : Address :=
  { id := r.id
    area_id := r.area_id
    house_number := r.house_number
    position := { x := r.x, y := r.y }
    confidence := r.confidence
    verified := r.verified != 0
    estimated_flats := r.estimated_flats.map (fun v => (v % 65536).toNat)
    circle_radius := r.circle_radius
    assigned_street_id := r.street_id }

/-- Row-to-domain mapping for areas (core/db/mod.rs lines 185–194):
`Color::try_from` cannot fail, `AreaState::try_from` can. -/
def AreaRow.toArea (r : AreaRow) : Except DbError Area :=
  match AreaState.tryFromI64 r.state with
  | .error e => .error e
  | .ok st => .ok { id := r.id, name := r.name, color := Color.fromI64 r.color, state := st }

/-! ## TeamRepository (core/db/mod.rs, `impl TeamRepository for AreaDb`) -/

namespace TeamRepo

/-- `SELECT COALESCE(MAX(num), -1)` before the `+ 1`: SQL `MAX` over
the selected rows (`NULL`, i.e. `none`, when there are none). -/
def sqlMaxNum (l : List TeamRow) : Option Int :=
  l.foldl (fun acc r => some (match acc with
    | none => r.num
    | some m => max m r.num)) none

/-- `get_team_by_id` (lines 218–236): `fetch_optional` of the row with
this area and id. -/
def get_team_by_id (db : Db) (area_id : Int) (id : Int) : Option Team :=
  (db.teams.find? (fun r => r.area_id == area_id && r.id == id)).map TeamRow.toTeam

/-- `add_team` (lines 238–253): inserts a team row for this area with
`num = COALESCE(MAX(num), -1) + 1` over the area's teams, returning
the inserted row's domain value. -/
def add_team (db : Db) (area_id : Int) : Team × Db :=
  let num := (sqlMaxNum (db.teams.filter (fun r => r.area_id == area_id))).getD (-1) + 1
  let row : TeamRow := { id := db.next_team_id, area_id := area_id, num := num }
  (row.toTeam,
    { db with teams := db.teams ++ [row], next_team_id := db.next_team_id + 1 })

/-- `add_address` (lines 255–266): `INSERT INTO team_assignment
(team_id, address_id, area_id) VALUES ($1, $2, $3)`.

Modelled from the spec: the table's constraints live in the migrations
(absent from `src/`); per spec §4.3/§6 the insert must fail with a
foreign-key-class error when `(team_id, area_id)` resp.
`(address_id, area_id)` match no team resp. address row, and with a
uniqueness-class error when `address_id` already has an assignment;
foreign keys are checked first. -/
def add_address (db : Db) (area_id : Int) (team : Team) (address : Address) :
    Except DbError Db :=
  if !(db.teams.any (fun r => r.id == team.id && r.area_id == area_id)) then
    .error .foreignKeyViolation
  else if !(db.addresses.any (fun r => r.id == address.id && r.area_id == area_id)) then
    .error .foreignKeyViolation
  else if db.team_assignment.any (fun r => r.address_id == address.id) then
    .error .uniqueViolation
  else
    .ok { db with team_assignment := db.team_assignment ++
            [{ team_id := team.id, address_id := address.id, area_id := area_id }] }

/-- `set_team_bounds` (lines 346–370): inside one transaction, delete
this team's vertex rows and insert the new points with positions
`0, 1, 2, …` (`enumerate`); returns `TeamBounds { boundary: bounds }`.
The transaction makes the two steps one atomic state change, which the
single state-to-state function models. -/
def set_team_bounds (db : Db) (team : Team) (bounds : List Point) : TeamBounds × Db :=
  ({ boundary := bounds },
    { db with team_bounds_vertices :=
        db.team_bounds_vertices.filter (fun r => !(r.owner_id == team.id)) ++
          bounds.enum.map (fun ip =>
            { owner_id := team.id, position := ip.1, x := ip.2.x, y := ip.2.y }) })

/-- `get_team_bounds` (lines 372–403): this team's vertex rows ordered
by position; `None` when there are none. -/
def get_team_bounds (db : Db) (team : Team) : Option TeamBounds :=
  let records := List.insertionSort (fun a b : VertexRow => a.position ≤ b.position)
    (db.team_bounds_vertices.filter (fun r => r.owner_id == team.id))
  if records.isEmpty then none
  else some { boundary := records.map (fun r => { x := r.x, y := r.y }) }

end TeamRepo

/-! ## StreetRepository (core/db/mod.rs, `impl StreetRepository for AreaDb`) -/

namespace StreetRepo

/-- `get_street_by_id` (lines 720–740). -/
def get_street_by_id (db : Db) (area_id : Int) (id : Int) : Option Street :=
  (db.streets.find? (fun r => r.area_id == area_id && r.id == id)).map StreetRow.toStreet

/-- `draw_street_polyline` (lines 759–784): inside one transaction,
delete this street's vertex rows and insert the new points with
positions `0, 1, 2, …` (`enumerate`). -/
def draw_street_polyline (db : Db) (street : Street) (polyline : List Point) : Db :=
  { db with street_polyline_vertices :=
      db.street_polyline_vertices.filter (fun r => !(r.owner_id == street.id)) ++
        polyline.enum.map (fun ip =>
          { owner_id := street.id, position := ip.1, x := ip.2.x, y := ip.2.y }) }

/-- `get_street_polyline` (lines 786–814): this street's vertex rows
ordered by position; `None` when there are none. -/
def get_street_polyline (db : Db) (street : Street) : Option StreetPolyline :=
  let records := List.insertionSort (fun a b : VertexRow => a.position ≤ b.position)
    (db.street_polyline_vertices.filter (fun r => r.owner_id == street.id))
  if records.isEmpty then none
  else some { points := records.map (fun r => { x := r.x, y := r.y }) }

end StreetRepo

/-! ## AddressRepository (core/db/mod.rs, `impl AddressRepository for AreaDb`) -/

namespace AddressRepo

/-- `get_address_by_id` (lines 464–510). -/
def get_address_by_id (db : Db) (area_id : Int) (id : Int) : Option Address :=
  (db.addresses.find? (fun r => r.area_id == area_id && r.id == id)).map AddressRow.toAddress

/-- `add_address` (lines 559–609): inserts an address row for this
area; `estimated_flats` is bound as `map(|v| v as i64)`.  The `verified`
column is not named in the INSERT and takes its schema default, which
is false/0 (modelled from the spec's round-trip property and the
`test_add_address_without_street` assertion, the migrations being
absent from `src/`). -/
def add_address (db : Db) (area_id : Int) (address : NewAddress) : Address × Db :=
  let estimated_flats := address.estimated_flats.map (fun v => (v : Int))
  let row : AddressRow :=
    { id := db.next_address_id
      area_id := area_id
      house_number := address.house_number
      x := address.position.x
      y := address.position.y
      confidence := address.confidence
      verified := 0
      estimated_flats := estimated_flats
      circle_radius := address.circle_radius
      street_id := address.assigned_street_id }
  (row.toAddress,
    { db with addresses := db.addresses ++ [row],
              next_address_id := db.next_address_id + 1 })

/-- The row produced by `update_address`'s UPDATE statement (lines
611–684).  The three-way fields are resolved in Rust before the query:
`estimated_flats`/`street` fall back to the passed `address` value when
`None`; the remaining fields use SQL `COALESCE` with the stored
column. -/
def updated_row (r : AddressRow) (address : Address) (update : AddressUpdate) :
    AddressRow :=
  { r with
    house_number := update.house_number.getD r.house_number
    x := (update.position.map (fun p => p.x)).getD r.x
    y := (update.position.map (fun p => p.y)).getD r.y
    confidence := update.confidence.getD r.confidence
    verified := (update.verified.map boolToI64).getD r.verified
    circle_radius := update.circle_radius.getD r.circle_radius
    estimated_flats := match update.estimated_flats with
      | some (some v) => some (v : Int)
      | some none => none
      | none => address.estimated_flats.map (fun v => (v : Int))
    street_id := match update.street with
      | some x => x.map (fun s => s.id)
      | none => address.assigned_street_id }

/-- `update_address` (lines 611–684): `UPDATE … WHERE id = $8 AND
area_id = $9 RETURNING …`; `fetch_one` errors when no row matches. -/
def update_address (db : Db) (area_id : Int) (address : Address)
    (update : AddressUpdate) : Except DbError (Address × Db) :=
  match db.addresses.find? (fun r => r.id == address.id && r.area_id == area_id) with
  | none => .error .rowNotFound
  | some r =>
    let r' := updated_row r address update
    .ok (r'.toAddress,
      { db with addresses := db.addresses.map (fun q =>
          if q.id == address.id && q.area_id == area_id then r' else q) })

end AddressRepo

/-! ## AreaRepository and BoundAreaRepository (core/db/mod.rs) -/

/-- The project-level state an `AreaRepository` call touches: the
store plus the images directory. -/
structure ProjectSt where
  db : Db
  store : ImageStore
deriving Repr

namespace AreaRepo

/-- `add_area` (lines 150–177): store the source image (panics — `none`
— when the path has no UTF-8 extension), then `INSERT INTO area (name,
color, image_fname, state)` with the color encoded by `i64::from` and
`state = i64::from(AreaState::Imported)`, returning the new row id.
(`load_area_image` re-reads the file just written; its I/O is not
modelled.) -/
def add_area (st : ProjectSt) (area : NewArea) : Option (Int × ProjectSt) :=
  match ProjectState.store_area_image st.store area.image_path with
  | none => none
  | some (image_fname, store') =>
    let color_int := Color.toI64 area.color
    let initial_state := AreaState.toI64 .imported
    let row : AreaRow :=
      { id := st.db.next_area_id
        name := area.name
        color := color_int
        image_fname := image_fname
        state := initial_state }
    some (row.id,
      { db := { st.db with areas := st.db.areas ++ [row],
                           next_area_id := st.db.next_area_id + 1 }
        store := store' })

/-- The `collect::<Result<Vec<Area>>>` over decoded rows in
`get_areas`: first failing `TryFrom` aborts. -/
def decode_areas : List AreaRow → Except DbError (List Area)
  | [] => .ok []
  | r :: rs =>
    match r.toArea with
    | .error e => .error e
    | .ok a =>
      match decode_areas rs with
      | .error e => .error e
      | .ok l => .ok (a :: l)

/-- `get_areas` (lines 179–198): `SELECT … FROM area ORDER BY id ASC`,
each row decoded through the `TryFrom` conversions. -/
def get_areas (db : Db) : Except DbError (List Area) :=
  decode_areas (List.insertionSort (fun a b : AreaRow => a.id ≤ b.id) db.areas)

end AreaRepo

namespace BoundAreaRepo

/-- `get_area` (lines 867–889): `fetch_optional` of the handle's area
row; an absent row is a hard `anyhow!("Area with id {} not found")`
error (modelled as `DbError.areaNotFound` carrying the id). -/
def get_area (db : Db) (area_id : Int) : Except DbError Area :=
  match db.areas.find? (fun r => r.id == area_id) with
  | some r => r.toArea
  | none => .error (.areaNotFound area_id)

end BoundAreaRepo

/-! ## The in-memory `AddressDatabase` (core/db/address.rs)

This file of the snapshot belongs to a revision where `Address` ids and
street references are UUIDs (`HashMap<Uuid, Address>` etc.); the
`Address` fields it touches are modelled in the `AddressDb` namespace.
UUIDs are modelled as `Nat` (any type with decidable equality and a
distinguished `nil` works).  `HashMap`/`HashSet` are modelled as
association lists / lists with exactly the entry/insert/remove
protocols the source uses; the `rstar::RTree` position index is a list
read as a multiset (`insert` adds one element, `remove` deletes one
matching element; ordering is irrelevant to its queries). -/

namespace AddressDb

/-- `uuid::Uuid`, modelled by the index of the call that generated it. -/
abbrev Uuid := Nat

/-- `Uuid::nil()`, the `addr_index` key for street-less addresses. -/
def uuidNil : Uuid := 0

/-- The `Address` of the `AddressDatabase` revision: `id` and
`assigned_street_id` are UUIDs; remaining fields as in the repository
`Address`. -/
structure Address where
  id : Uuid
  house_number : String
  position : Point
  confidence : Confidence
  verified : Bool
  estimated_flats : Option Nat
  circle_radius : Nat
  assigned_street_id : Option Uuid
deriving DecidableEq, Repr

/-- `LookupPoint` (core/db/util.rs): the R-tree entry with `i32`
coordinates. -/
structure LookupPoint where
  id : Uuid
  x : Int
  y : Int
deriving DecidableEq, Repr

/-- The `u32 as i32` wrapping cast applied to coordinates when they
enter the position index. -/
def i32_of_u32 (n : Nat) : Int :=
  if n % 2 ^ 32 < 2 ^ 31 then ((n % 2 ^ 32 : Nat) : Int)
  else ((n % 2 ^ 32 : Nat) : Int) - 2 ^ 32

/-- The `LookupPoint` of an address (used by `from_addresses` and
`insert`; `remove` rebuilds it from the argument id and the stored
position). -/
def lookupPointOf (a : Address) : LookupPoint :=
  { id := a.id, x := i32_of_u32 a.position.x, y := i32_of_u32 a.position.y }

/-- `HashMap::get` on the association-list model. -/
def hmGet {κ ω : Type} [DecidableEq κ] (m : List (κ × ω)) (k : κ) : Option ω :=
  (m.find? (fun p => decide (p.1 = k))).map (fun p => p.2)

/-- `HashMap::insert` (replacing any previous binding of the key). -/
def hmInsert {κ ω : Type} [DecidableEq κ] (m : List (κ × ω)) (k : κ) (v : ω) :
    List (κ × ω) :=
  (k, v) :: m.filter (fun p => !(decide (p.1 = k)))

/-- `HashMap::remove`. -/
def hmRemove {κ ω : Type} [DecidableEq κ] (m : List (κ × ω)) (k : κ) :
    List (κ × ω) :=
  m.filter (fun p => !(decide (p.1 = k)))

/-- `HashSet::insert`. -/
def hsInsert {κ : Type} [DecidableEq κ] (s : List κ) (k : κ) : List κ :=
  if k ∈ s then s else k :: s

/-- `HashSet::remove`. -/
def hsRemove {κ : Type} [DecidableEq κ] (s : List κ) (k : κ) : List κ :=
  s.filter (fun x => !(decide (x = k)))

/-- `AddressDatabase` (core/db/address.rs lines 11–17). -/
structure AddressDatabase where
  addresses : List (Uuid × Address)
  street_index : List (Uuid × List Uuid)
  addr_index : List (Uuid × List (String × Uuid))
  position_index : List LookupPoint
  estimated_flats_index : List (Nat × List Uuid)

namespace AddressDatabase

/-- `AddressDatabase::new` (lines 20–28). -/
def new : AddressDatabase :=
  { addresses := [], street_index := [], addr_index := []
    position_index := [], estimated_flats_index := [] }

/-- `AddressDatabase::from_addresses` (lines 30–83): each index built
by its own pass, then the addresses collected into the id-keyed map. -/
def from_addresses (addresses : List Address) : AddressDatabase :=
  let street_index := addresses.foldl (fun map addr =>
    match addr.assigned_street_id with
    | some street_id =>
      hmInsert map street_id (hsInsert ((hmGet map street_id).getD []) addr.id)
    | none => map) []
  let addr_index := addresses.foldl (fun map addr =>
    let key := addr.assigned_street_id.getD uuidNil
    hmInsert map key
      (hmInsert ((hmGet map key).getD []) addr.house_number addr.id)) []
  let position_index := addresses.map lookupPointOf
  let estimated_flats_index := (addresses.filterMap (fun a =>
      a.estimated_flats.map (fun flats => (a.id, flats)))).foldl
    (fun map addr =>
      hmInsert map addr.2 (hsInsert ((hmGet map addr.2).getD []) addr.1)) []
  let addresses := addresses.foldl (fun m addr => hmInsert m addr.id addr) []
  { addresses, street_index, addr_index, position_index, estimated_flats_index }

/-- `AddressDatabase::insert` (lines 124–142).  The leading
`assert!(!self.addresses.contains_key(&address.id))` panic is modelled
as `none`.  Note: the source updates `addr_index`, `position_index`,
`estimated_flats_index` and `addresses` — but not `street_index`. -/
def insert (db : AddressDatabase) (address : Address) : Option AddressDatabase :=
  if (hmGet db.addresses address.id).isSome then none
  else some
    { addresses := hmInsert db.addresses address.id address
      street_index := db.street_index
      addr_index :=
        let key := address.assigned_street_id.getD uuidNil
        hmInsert db.addr_index key
          (hmInsert ((hmGet db.addr_index key).getD []) address.house_number address.id)
      position_index := lookupPointOf address :: db.position_index
      estimated_flats_index :=
        match address.estimated_flats with
        | some flats =>
          hmInsert db.estimated_flats_index flats
            (hsInsert ((hmGet db.estimated_flats_index flats).getD []) address.id)
        | none => db.estimated_flats_index }

/-- `AddressDatabase::remove` (lines 89–122): look the address up (no-op
when absent), drop it from the map, clean the street and addr indices
only when it has an assigned street (dropping keys whose collection
becomes empty), remove its lookup point, and clean the flats index. -/
def remove (db : AddressDatabase) (id : Uuid) : Option Address × AddressDatabase :=
  match hmGet db.addresses id with
  | none => (none, db)
  | some address =>
    let addresses := hmRemove db.addresses id
    let street_index :=
      match address.assigned_street_id with
      | some street_id =>
        match hmGet db.street_index street_id with
        | none => db.street_index
        | some addr_set =>
          let addr_set := hsRemove addr_set id
          if addr_set.isEmpty then hmRemove db.street_index street_id
          else hmInsert db.street_index street_id addr_set
      | none => db.street_index
    let addr_index :=
      match address.assigned_street_id with
      | some street_id =>
        match hmGet db.addr_index street_id with
        | none => db.addr_index
        | some hn_map =>
          let hn_map := hmRemove hn_map address.house_number
          if hn_map.isEmpty then hmRemove db.addr_index street_id
          else hmInsert db.addr_index street_id hn_map
      | none => db.addr_index
    let position_index := db.position_index.erase
      { id := id, x := i32_of_u32 address.position.x, y := i32_of_u32 address.position.y }
    let estimated_flats_index :=
      match address.estimated_flats with
      | some flats =>
        match hmGet db.estimated_flats_index flats with
        | none => db.estimated_flats_index
        | some id_set =>
          let id_set := hsRemove id_set id
          if id_set.isEmpty then hmRemove db.estimated_flats_index flats
          else hmInsert db.estimated_flats_index flats id_set
      | none => db.estimated_flats_index
    (some address,
      { addresses, street_index, addr_index, position_index, estimated_flats_index })

/-- The invariant maintained by the `AddressDatabase` operations:
addresses-map keys agree with the stored addresses' own ids; the
position and estimated-flats indices agree exactly with the addresses
map; the street index and (off the nil key) the addr index are sound —
every entry names a stored address with the matching street resp.
(street, house number). -/
structure WF (db : AddressDatabase) : Prop where
  keys_id : ∀ p ∈ db.addresses, (p : Uuid × Address).2.id = p.1
  keys_nodup : (db.addresses.map Prod.fst).Nodup
  street_sound : ∀ sid s, hmGet db.street_index sid = some s →
    ∀ aid ∈ s, ∃ a, hmGet db.addresses aid = some a ∧
      a.assigned_street_id = some sid
  addr_sound : ∀ sid hn aid, sid ≠ uuidNil →
    (hmGet db.addr_index sid).bind (fun m => hmGet m hn) = some aid →
    ∃ a, hmGet db.addresses aid = some a ∧ a.house_number = hn ∧
      a.assigned_street_id = some sid
  flats_exact : ∀ f aid,
    (∃ s, hmGet db.estimated_flats_index f = some s ∧ aid ∈ s) ↔
    (∃ a, hmGet db.addresses aid = some a ∧ a.estimated_flats = some f)
  pos_exact : (db.position_index : Multiset LookupPoint) =
    ((db.addresses.map (fun p => lookupPointOf p.2) : List LookupPoint) :
      Multiset LookupPoint)

/-- The claim's street-index clause: the index maps each street id to
exactly the ids of stored addresses assigned to it. -/
def street_index_exact (db : AddressDatabase) : Prop :=
  ∀ sid aid, (∃ s, hmGet db.street_index sid = some s ∧ aid ∈ s) ↔
    (∃ a, hmGet db.addresses aid = some a ∧ a.assigned_street_id = some sid)

/-- The states reachable through the four operations of the claim
(`from_addresses` on a duplicate-id-free input, `insert` when its
freshness assertion passes). -/
inductive Reach : AddressDatabase → Prop where
  | init : Reach new
  | fromAddresses (l : List Address) (h : (l.map (fun a => a.id)).Nodup) :
      Reach (from_addresses l)
  | insertOp (db : AddressDatabase) (a : Address) (db' : AddressDatabase) :
      Reach db → insert db a = some db' → Reach db'
  | removeOp (db : AddressDatabase) (id : Uuid) :
      Reach db → Reach (remove db id).2

end AddressDatabase

/-- A concrete street-assigned address (street 5, id 7), used for
concrete instantiations of the `AddressDatabase` properties. -/
def sampleAddr : Address :=
  { id := 7, house_number := "1", position := { x := 0, y := 0 }
    confidence := 0, verified := false, estimated_flats := none
    circle_radius := 0, assigned_street_id := some 5 }

end AddressDb

/-- The `ORDER BY id ASC` relation on area rows is total. -/
instance areaRowIdLe_total : IsTotal AreaRow (fun a b => a.id ≤ b.id) :=
  ⟨fun a b => le_total a.id b.id⟩

/-- The `ORDER BY id ASC` relation on area rows is transitive. -/
instance areaRowIdLe_trans : IsTrans AreaRow (fun a b => a.id ≤ b.id) :=
  ⟨fun _ _ _ hab hbc => le_trans hab hbc⟩

/-- An empty store (the state after opening a fresh project and running
the migrations), used for concrete instantiations. -/
def Db.empty : Db :=
  { areas := [], streets := [], street_polyline_vertices := [], addresses := []
    teams := [], team_assignment := [], team_bounds_vertices := []
    next_area_id := 1, next_street_id := 1, next_address_id := 1, next_team_id := 1 }

end Addrslips

namespace Addrslips

/-! # Theorems -/

namespace AddressDb

variable {κ ω β : Type} [DecidableEq κ]

/-- Lookup after a cons. -/
theorem hmGet_cons (m : List (κ × ω)) (k k' : κ) (v : ω) :
    hmGet ((k, v) :: m) k' = if k' = k then some v else hmGet m k' := by
  by_cases h : k' = k
  · subst h
    simp [hmGet]
  · have hne : ¬(k = k') := fun hh => h hh.symm
    have : (decide (k = k')) = false := by simp [hne]
    simp [hmGet, List.find?_cons, this, h]

/-- Filtering out one key changes no other key's first match. -/
theorem find?_key_filter_ne (m : List (κ × ω)) (k k' : κ) (h : k' ≠ k) :
    (m.filter (fun p => !(decide (p.1 = k)))).find? (fun p => decide (p.1 = k')) =
      m.find? (fun p => decide (p.1 = k')) := by
  induction m with
  | nil => rfl
  | cons p m ih =>
    by_cases hp : p.1 = k
    · have h1 : (!(decide (p.1 = k))) = false := by simp [hp]
      have h2 : (decide (p.1 = k')) = false := by
        have hne : ¬(p.1 = k') := fun hh => h (hh.symm.trans hp)
        simp [hne]
      rw [List.filter_cons, h1]
      simp only [Bool.false_eq_true, if_false]
      rw [ih, List.find?_cons_of_neg _ (by simp [h2])]
    · have h1 : (!(decide (p.1 = k))) = true := by simp [hp]
      rw [List.filter_cons, h1]
      simp only [if_true]
      by_cases hq : p.1 = k'
      · rw [List.find?_cons_of_pos _ (by simp [hq]),
          List.find?_cons_of_pos _ (by simp [hq])]
      · rw [List.find?_cons_of_neg _ (by simp [hq]),
          List.find?_cons_of_neg _ (by simp [hq]), ih]

/-- Lookup of the freshly inserted key. -/
theorem hmGet_insert_self (m : List (κ × ω)) (k : κ) (v : ω) :
    hmGet (hmInsert m k v) k = some v := by
  simp [hmGet, hmInsert]

/-- Insertion leaves other keys' lookups unchanged. -/
theorem hmGet_insert_ne (m : List (κ × ω)) (k k' : κ) (v : ω) (h : k' ≠ k) :
    hmGet (hmInsert m k v) k' = hmGet m k' := by
  unfold hmGet hmInsert
  have hne : ¬(k = k') := fun hh => h hh.symm
  rw [List.find?_cons_of_neg _ (by simp [hne])]
  rw [find?_key_filter_ne m k k' h]

/-- Lookup of a removed key. -/
theorem hmGet_remove_self (m : List (κ × ω)) (k : κ) :
    hmGet (hmRemove m k) k = none := by
  unfold hmGet hmRemove
  rw [List.find?_eq_none.mpr]
  · rfl
  · intro p hp
    have := (List.mem_filter.mp hp).2
    simp only [Bool.not_eq_true', decide_eq_false_iff_not] at this
    simp [this]

/-- Removal leaves other keys' lookups unchanged. -/
theorem hmGet_remove_ne (m : List (κ × ω)) (k k' : κ) (h : k' ≠ k) :
    hmGet (hmRemove m k) k' = hmGet m k' := by
  unfold hmGet hmRemove
  rw [find?_key_filter_ne m k k' h]

/-- Absent key means no entry bears it. -/
theorem hmGet_none_iff (m : List (κ × ω)) (k : κ) :
    hmGet m k = none ↔ ∀ p ∈ m, p.1 ≠ k := by
  unfold hmGet
  rw [Option.map_eq_none', List.find?_eq_none]
  constructor
  · intro h p hp
    have := h p hp
    simpa using this
  · intro h p hp
    simp [h p hp]

/-- A successful lookup exhibits a list entry. -/
theorem hmGet_mem {m : List (κ × ω)} {k : κ} {v : ω} (h : hmGet m k = some v) :
    (k, v) ∈ m := by
  unfold hmGet at h
  rw [Option.map_eq_some'] at h
  obtain ⟨p, hp, hv⟩ := h
  have hk := List.find?_some hp
  simp only [decide_eq_true_eq] at hk
  have := List.mem_of_find?_eq_some hp
  rw [← hk, ← hv]
  exact this

/-- With duplicate-free keys, membership determines the lookup. -/
theorem hmGet_of_mem_nodup (k : κ) (v : ω) :
    ∀ m : List (κ × ω), (m.map Prod.fst).Nodup → (k, v) ∈ m →
      hmGet m k = some v := by
  intro m
  induction m with
  | nil => intro _ hmem; exact absurd hmem (List.not_mem_nil _)
  | cons p m ih =>
    intro hnd hmem
    obtain ⟨p1, p2⟩ := p
    rw [List.map_cons, List.nodup_cons] at hnd
    rcases List.mem_cons.mp hmem with heq | hmem
    · injection heq with h1 h2
      subst h1
      subst h2
      rw [hmGet_cons m k k v, if_pos rfl]
    · have hk : k ∈ m.map Prod.fst := List.mem_map.mpr ⟨(k, v), hmem, rfl⟩
      have hne : k ≠ p1 := fun h => hnd.1 (h ▸ hk)
      rw [hmGet_cons m p1 k p2, if_neg hne]
      exact ih hnd.2 hmem

/-- With duplicate-free keys, lookup coincides with list membership. -/
theorem hmGet_eq_some_iff_mem {m : List (κ × ω)} (hnd : (m.map Prod.fst).Nodup)
    (k : κ) (v : ω) : hmGet m k = some v ↔ (k, v) ∈ m :=
  ⟨hmGet_mem, hmGet_of_mem_nodup k v m hnd⟩

/-- Inserting a key with no previous binding is a plain cons. -/
theorem hmInsert_of_get_none {m : List (κ × ω)} {k : κ} (v : ω)
    (h : hmGet m k = none) : hmInsert m k v = (k, v) :: m := by
  unfold hmInsert
  rw [List.filter_eq_self.mpr]
  intro p hp
  simp [(hmGet_none_iff m k).mp h p hp]

/-- `HashSet::insert` membership. -/
theorem mem_hsInsert (s : List κ) (k x : κ) :
    x ∈ hsInsert s k ↔ x = k ∨ x ∈ s := by
  unfold hsInsert
  by_cases h : k ∈ s
  · simp only [h, if_true]
    constructor
    · exact Or.inr
    · rintro (rfl | hx)
      · exact h
      · exact hx
  · simp [h, List.mem_cons]

/-- `HashSet::remove` membership. -/
theorem mem_hsRemove (s : List κ) (k x : κ) :
    x ∈ hsRemove s k ↔ x ∈ s ∧ x ≠ k := by
  unfold hsRemove
  rw [List.mem_filter]
  simp

/-- Lookup through the source's remove-and-drop-empty-collections
pattern, uniformly over whether the shrunk collection is dropped. -/
theorem hmGet_dropOrInsert (m : List (κ × ω)) (k k' : κ) (b : Bool) (w : ω) :
    hmGet (if b then hmRemove m k else hmInsert m k w) k' =
      if k' = k then (if b then none else some w) else hmGet m k' := by
  by_cases hk : k' = k <;> cases b
  · subst hk
    simp [hmGet_insert_self]
  · subst hk
    simp [hmGet_remove_self]
  · simp [hk, hmGet_insert_ne m k k' w hk]
  · simp [hk, hmGet_remove_ne m k k' hk]

/-- Removing a bound key splits the value multiset: the old values are
the removed one plus the remaining ones. -/
theorem hm_remove_values (f : ω → β) (m : List (κ × ω)) (k : κ) (v : ω)
    (hnd : (m.map Prod.fst).Nodup) (hget : hmGet m k = some v) :
    (m.map (fun p => f p.2) : Multiset β) =
      f v ::ₘ ((hmRemove m k).map (fun p => f p.2) : Multiset β) := by
  induction m with
  | nil => exact absurd hget (by simp [hmGet])
  | cons p m ih =>
    obtain ⟨p1, p2⟩ := p
    rw [List.map_cons, List.nodup_cons] at hnd
    rw [hmGet_cons m p1 k p2] at hget
    by_cases hp : k = p1
    · rw [if_pos hp] at hget
      injection hget with hv
      subst hv
      subst hp
      have hrm : hmRemove ((k, p2) :: m) k = m := by
        unfold hmRemove
        rw [List.filter_cons]
        have h1 : (!(decide (((k, p2) : κ × ω).1 = k))) = false := by simp
        rw [h1]
        simp only [Bool.false_eq_true, if_false]
        refine List.filter_eq_self.mpr (fun q hq => ?_)
        have hq1 : q.1 ≠ k := fun hh => hnd.1 (hh ▸ List.mem_map.mpr ⟨q, hq, rfl⟩)
        simp [hq1]
      rw [hrm, List.map_cons]
      exact Multiset.cons_coe _ _
    · rw [if_neg hp] at hget
      have hrm : hmRemove ((p1, p2) :: m) k = (p1, p2) :: hmRemove m k := by
        unfold hmRemove
        rw [List.filter_cons]
        have h1 : (!(decide (((p1, p2) : κ × ω).1 = k))) = true := by
          have hne : ¬(p1 = k) := fun h => hp h.symm
          simp [hne]
        rw [h1]
        simp only [if_true]
      rw [hrm, List.map_cons, List.map_cons, ← Multiset.cons_coe,
        ← Multiset.cons_coe, ih hnd.2 hget]
      exact Multiset.cons_swap _ _ _

/-- `AddressDatabase::new` establishes the invariant. -/
theorem wf_new : AddressDatabase.WF AddressDatabase.new := by
  refine ⟨?_, ?_, ?_, ?_, ?_, ?_⟩
  · intro p hp
    exact absurd hp (List.not_mem_nil p)
  · exact List.nodup_nil
  · intro sid s hs
    exact absurd hs (by simp [AddressDatabase.new, hmGet])
  · intro sid hn aid _ hget
    exact absurd hget (by simp [AddressDatabase.new, hmGet])
  · intro f aid
    simp [AddressDatabase.new, hmGet]
  · rfl

/-- `AddressDatabase::insert` preserves the invariant whenever its
id-freshness assertion passes (it never touches `street_index`, whose
soundness survives because the address set only grows). -/
theorem wf_insert (db : AddressDatabase) (a : Address) (db' : AddressDatabase)
    (hwf : AddressDatabase.WF db) (h : AddressDatabase.insert db a = some db') :
    AddressDatabase.WF db' := by
  by_cases hfresh : (hmGet db.addresses a.id).isSome
  · rw [AddressDatabase.insert, if_pos hfresh] at h
    exact absurd h (by simp)
  · have hnone : hmGet db.addresses a.id = none :=
      Option.not_isSome_iff_eq_none.mp hfresh
    rw [AddressDatabase.insert, if_neg hfresh] at h
    injection h with h
    subst h
    have haddr : hmInsert db.addresses a.id a = (a.id, a) :: db.addresses :=
      hmInsert_of_get_none a hnone
    have hget' : ∀ aid, hmGet (hmInsert db.addresses a.id a) aid =
        if aid = a.id then some a else hmGet db.addresses aid := by
      intro aid
      rw [haddr, hmGet_cons]
    have hlift : ∀ aid (a' : Address), hmGet db.addresses aid = some a' →
        hmGet (hmInsert db.addresses a.id a) aid = some a' := by
      intro aid a' ha'
      have hne : aid ≠ a.id := by
        intro hh
        rw [hh, hnone] at ha'
        exact absurd ha' (by simp)
      rw [hget' aid, if_neg hne]
      exact ha'
    refine ⟨?_, ?_, ?_, ?_, ?_, ?_⟩
    · show ∀ p ∈ hmInsert db.addresses a.id a, (p : Uuid × Address).2.id = p.1
      intro p hp
      rw [haddr] at hp
      rcases List.mem_cons.mp hp with hp | hp
      · rw [hp]
      · exact hwf.keys_id p hp
    · show ((hmInsert db.addresses a.id a).map Prod.fst).Nodup
      rw [haddr, List.map_cons, List.nodup_cons]
      refine ⟨?_, hwf.keys_nodup⟩
      intro hmem
      obtain ⟨p, hp, hp1⟩ := List.mem_map.mp hmem
      exact (hmGet_none_iff _ _).mp hnone p hp hp1
    · intro sid s hs aid haid
      obtain ⟨a', ha', hstreet⟩ := hwf.street_sound sid s hs aid haid
      exact ⟨a', hlift aid a' ha', hstreet⟩
    · intro sid hn aid hsid hget
      by_cases hk : sid = a.assigned_street_id.getD uuidNil
      · rw [show hmGet (hmInsert db.addr_index (a.assigned_street_id.getD uuidNil)
            (hmInsert ((hmGet db.addr_index (a.assigned_street_id.getD uuidNil)).getD [])
              a.house_number a.id)) sid =
            some (hmInsert ((hmGet db.addr_index
              (a.assigned_street_id.getD uuidNil)).getD []) a.house_number a.id)
          from hk ▸ hmGet_insert_self _ _ _] at hget
        simp only [Option.some_bind] at hget
        have hstreet : a.assigned_street_id = some sid := by
          cases ha : a.assigned_street_id with
          | none =>
            rw [ha] at hk
            exact absurd hk hsid
          | some s' =>
            rw [ha] at hk
            simp only [Option.getD_some] at hk
            rw [hk]
        by_cases hh : hn = a.house_number
        · rw [hh, hmGet_insert_self] at hget
          injection hget with hget
          refine ⟨a, ?_, hh.symm, hstreet⟩
          rw [← hget, hget' a.id, if_pos rfl]
        · rw [hmGet_insert_ne _ _ _ _ hh] at hget
          cases hmap : hmGet db.addr_index (a.assigned_street_id.getD uuidNil) with
          | none =>
            rw [hmap] at hget
            exact absurd hget (by simp [hmGet])
          | some m0 =>
            rw [hmap] at hget
            have hold : (hmGet db.addr_index sid).bind (fun m => hmGet m hn) =
                some aid := by
              rw [hk, hmap]
              simpa using hget
            obtain ⟨a', ha', hhn, hstr⟩ := hwf.addr_sound sid hn aid hsid hold
            exact ⟨a', hlift aid a' ha', hhn, hstr⟩
      · rw [show hmGet (hmInsert db.addr_index (a.assigned_street_id.getD uuidNil)
            (hmInsert ((hmGet db.addr_index (a.assigned_street_id.getD uuidNil)).getD [])
              a.house_number a.id)) sid = hmGet db.addr_index sid
          from hmGet_insert_ne _ _ _ _ hk] at hget
        obtain ⟨a', ha', hhn, hstr⟩ := hwf.addr_sound sid hn aid hsid hget
        exact ⟨a', hlift aid a' ha', hhn, hstr⟩
    · intro f aid
      cases hfl : a.estimated_flats with
      | none =>
        show (∃ s, hmGet db.estimated_flats_index f = some s ∧ aid ∈ s) ↔ _
        rw [hwf.flats_exact f aid]
        constructor
        · rintro ⟨a', ha', hfa'⟩
          exact ⟨a', hlift aid a' ha', hfa'⟩
        · rintro ⟨a', ha', hfa'⟩
          rw [hget' aid] at ha'
          by_cases haid : aid = a.id
          · rw [if_pos haid] at ha'
            injection ha' with ha'
            rw [← ha', hfl] at hfa'
            exact absurd hfa' (by simp)
          · rw [if_neg haid] at ha'
            exact ⟨a', ha', hfa'⟩
      | some flats =>
        show (∃ s, hmGet (hmInsert db.estimated_flats_index flats
            (hsInsert ((hmGet db.estimated_flats_index flats).getD []) a.id)) f =
            some s ∧ aid ∈ s) ↔ _
        by_cases hf : f = flats
        · subst hf
          rw [show hmGet (hmInsert db.estimated_flats_index f
              (hsInsert ((hmGet db.estimated_flats_index f).getD []) a.id)) f =
              some (hsInsert ((hmGet db.estimated_flats_index f).getD []) a.id)
            from hmGet_insert_self _ _ _]
          constructor
          · rintro ⟨s, hs, hmem⟩
            injection hs with hs
            rw [← hs, mem_hsInsert] at hmem
            rcases hmem with rfl | hmem
            · refine ⟨a, ?_, hfl⟩
              rw [hget' a.id, if_pos rfl]
            · cases hm0 : hmGet db.estimated_flats_index f with
              | none =>
                rw [hm0] at hmem
                exact absurd hmem (List.not_mem_nil aid)
              | some s0 =>
                rw [hm0] at hmem
                obtain ⟨a', ha', hfa'⟩ :=
                  (hwf.flats_exact f aid).mp ⟨s0, hm0, by simpa using hmem⟩
                exact ⟨a', hlift aid a' ha', hfa'⟩
          · rintro ⟨a', ha', hfa'⟩
            rw [hget' aid] at ha'
            by_cases haid : aid = a.id
            · exact ⟨_, rfl, by rw [mem_hsInsert]; exact Or.inl haid⟩
            · rw [if_neg haid] at ha'
              obtain ⟨s0, hs0, hmem0⟩ := (hwf.flats_exact f aid).mpr ⟨a', ha', hfa'⟩
              refine ⟨_, rfl, ?_⟩
              rw [mem_hsInsert]
              right
              rw [hs0]
              exact hmem0
        · rw [show hmGet (hmInsert db.estimated_flats_index flats
              (hsInsert ((hmGet db.estimated_flats_index flats).getD []) a.id)) f =
              hmGet db.estimated_flats_index f
            from hmGet_insert_ne _ _ _ _ hf]
          rw [hwf.flats_exact f aid]
          constructor
          · rintro ⟨a', ha', hfa'⟩
            exact ⟨a', hlift aid a' ha', hfa'⟩
          · rintro ⟨a', ha', hfa'⟩
            rw [hget' aid] at ha'
            by_cases haid : aid = a.id
            · rw [if_pos haid] at ha'
              injection ha' with ha'
              rw [← ha', hfl] at hfa'
              injection hfa' with hfa'
              exact absurd hfa'.symm hf
            · rw [if_neg haid] at ha'
              exact ⟨a', ha', hfa'⟩
    · show ((lookupPointOf a :: db.position_index : List LookupPoint) :
          Multiset LookupPoint) = _
      rw [← Multiset.cons_coe, hwf.pos_exact, haddr, List.map_cons,
        ← Multiset.cons_coe]

/-- Reading through the getter's conditional of a possibly-dropped
collection. -/
theorem exists_ite_none_mem (l : List Uuid) (aid : Uuid) :
    (∃ s, (if l.isEmpty then (none : Option (List Uuid)) else some l) = some s ∧
      aid ∈ s) ↔ aid ∈ l := by
  cases l <;> simp

/-- `AddressDatabase::remove` preserves the invariant: the invariant of
any store whose fields are exactly those the operation produces.  The
field equations let the proof work against an abstract `db'` (the
structure literal in `remove`'s body satisfies them by `rfl`). -/
theorem wf_remove_aux (db : AddressDatabase) (id : Uuid) (address : Address)
    (db' : AddressDatabase)
    (hwf : AddressDatabase.WF db)
    (hget : hmGet db.addresses id = some address)
    (haddr : db'.addresses = hmRemove db.addresses id)
    (hsix : db'.street_index = match address.assigned_street_id with
      | some street_id =>
        match hmGet db.street_index street_id with
        | none => db.street_index
        | some addr_set =>
          if (hsRemove addr_set id).isEmpty then hmRemove db.street_index street_id
          else hmInsert db.street_index street_id (hsRemove addr_set id)
      | none => db.street_index)
    (haix : db'.addr_index = match address.assigned_street_id with
      | some street_id =>
        match hmGet db.addr_index street_id with
        | none => db.addr_index
        | some hn_map =>
          if (hmRemove hn_map address.house_number).isEmpty then
            hmRemove db.addr_index street_id
          else hmInsert db.addr_index street_id
            (hmRemove hn_map address.house_number)
      | none => db.addr_index)
    (hpix : db'.position_index = db.position_index.erase
      { id := id, x := i32_of_u32 address.position.x,
        y := i32_of_u32 address.position.y })
    (hfix : db'.estimated_flats_index = match address.estimated_flats with
      | some flats =>
        match hmGet db.estimated_flats_index flats with
        | none => db.estimated_flats_index
        | some id_set =>
          if (hsRemove id_set id).isEmpty then
            hmRemove db.estimated_flats_index flats
          else hmInsert db.estimated_flats_index flats (hsRemove id_set id)
      | none => db.estimated_flats_index) :
    AddressDatabase.WF db' := by
  have hmem := hmGet_mem hget
  have haid : address.id = id := hwf.keys_id (id, address) hmem
  have hsame : ∀ aid (a' : Address), hmGet db.addresses aid = some a' →
      aid = id → a' = address := by
    intro aid a' ha' hh
    rw [hh, hget] at ha'
    injection ha' with h
    exact h.symm
  have hget2 : ∀ aid, hmGet db'.addresses aid =
      if aid = id then none else hmGet db.addresses aid := by
    intro aid
    rw [haddr]
    by_cases h : aid = id
    · subst h
      simp [hmGet_remove_self]
    · simp [h, hmGet_remove_ne db.addresses id aid h]
  refine ⟨?_, ?_, ?_, ?_, ?_, ?_⟩
  · intro p hp
    rw [haddr] at hp
    exact hwf.keys_id p (List.mem_of_mem_filter hp)
  · rw [haddr]
    exact hwf.keys_nodup.sublist (List.Sublist.map _ (List.filter_sublist _))
  · intro sid s hs aid hmemaid
    rw [hsix] at hs
    cases hstr : address.assigned_street_id with
    | none =>
      rw [hstr] at hs
      obtain ⟨a', ha', hstr'⟩ := hwf.street_sound sid s hs aid hmemaid
      have hne : aid ≠ id := by
        intro hh
        rw [hsame aid a' ha' hh, hstr] at hstr'
        exact absurd hstr' (by simp)
      refine ⟨a', ?_, hstr'⟩
      rw [hget2 aid, if_neg hne]
      exact ha'
    | some street_id =>
      rw [hstr] at hs
      have hs1 : hmGet (match hmGet db.street_index street_id with
          | none => db.street_index
          | some addr_set =>
            if (hsRemove addr_set id).isEmpty then
              hmRemove db.street_index street_id
            else hmInsert db.street_index street_id (hsRemove addr_set id)) sid =
          some s := hs
      cases hsi : hmGet db.street_index street_id with
      | none =>
        rw [hsi] at hs1
        obtain ⟨a', ha', hstr'⟩ := hwf.street_sound sid s hs1 aid hmemaid
        have hne : aid ≠ id := by
          intro hh
          have hstr'' := hstr'
          rw [hsame aid a' ha' hh, hstr] at hstr''
          injection hstr'' with hstr''
          have hs1' : hmGet db.street_index sid = some s := hs1
          rw [hstr''] at hsi
          rw [hsi] at hs1'
          exact absurd hs1' (by simp)
        refine ⟨a', ?_, hstr'⟩
        rw [hget2 aid, if_neg hne]
        exact ha'
      | some addr_set =>
        rw [hsi] at hs1
        have hs2 : hmGet (if (hsRemove addr_set id).isEmpty
            then hmRemove db.street_index street_id
            else hmInsert db.street_index street_id (hsRemove addr_set id)) sid =
            some s := hs1
        rw [hmGet_dropOrInsert db.street_index street_id sid
          ((hsRemove addr_set id).isEmpty) (hsRemove addr_set id)] at hs2
        by_cases hsid : sid = street_id
        · rw [if_pos hsid] at hs2
          have hmem' : aid ∈ hsRemove addr_set id := by
            cases he : (hsRemove addr_set id).isEmpty with
            | true =>
              rw [he] at hs2
              exact absurd hs2 (by simp)
            | false =>
              rw [he] at hs2
              injection hs2 with hs2
              rw [hs2]
              exact hmemaid
          rw [mem_hsRemove] at hmem'
          obtain ⟨a', ha', hstr'⟩ := hwf.street_sound street_id addr_set hsi
            aid hmem'.1
          refine ⟨a', ?_, hsid ▸ hstr'⟩
          rw [hget2 aid, if_neg hmem'.2]
          exact ha'
        · rw [if_neg hsid] at hs2
          obtain ⟨a', ha', hstr'⟩ := hwf.street_sound sid s hs2 aid hmemaid
          have hne : aid ≠ id := by
            intro hh
            rw [hsame aid a' ha' hh, hstr] at hstr'
            injection hstr' with hstr'
            exact hsid hstr'.symm
          refine ⟨a', ?_, hstr'⟩
          rw [hget2 aid, if_neg hne]
          exact ha'
  · intro sid hn aid hsid hgeti
    rw [haix] at hgeti
    cases hstr : address.assigned_street_id with
    | none =>
      rw [hstr] at hgeti
      obtain ⟨a', ha', hhn, hstr'⟩ := hwf.addr_sound sid hn aid hsid hgeti
      have hne : aid ≠ id := by
        intro hh
        rw [hsame aid a' ha' hh, hstr] at hstr'
        exact absurd hstr' (by simp)
      refine ⟨a', ?_, hhn, hstr'⟩
      rw [hget2 aid, if_neg hne]
      exact ha'
    | some street_id =>
      rw [hstr] at hgeti
      have hg1 : (hmGet (match hmGet db.addr_index street_id with
          | none => db.addr_index
          | some hn_map =>
            if (hmRemove hn_map address.house_number).isEmpty then
              hmRemove db.addr_index street_id
            else hmInsert db.addr_index street_id
              (hmRemove hn_map address.house_number)) sid).bind
          (fun m => hmGet m hn) = some aid := hgeti
      cases hsi : hmGet db.addr_index street_id with
      | none =>
        rw [hsi] at hg1
        obtain ⟨a', ha', hhn, hstr'⟩ := hwf.addr_sound sid hn aid hsid hg1
        have hne : aid ≠ id := by
          intro hh
          have hstr'' := hstr'
          rw [hsame aid a' ha' hh, hstr] at hstr''
          injection hstr'' with hstr''
          have hg1' : (hmGet db.addr_index sid).bind (fun m => hmGet m hn) =
              some aid := hg1
          rw [hstr''] at hsi
          rw [hsi] at hg1'
          exact absurd hg1' (by simp)
        refine ⟨a', ?_, hhn, hstr'⟩
        rw [hget2 aid, if_neg hne]
        exact ha'
      | some hn_map =>
        rw [hsi] at hg1
        have hg2 : (hmGet (if (hmRemove hn_map address.house_number).isEmpty
            then hmRemove db.addr_index street_id
            else hmInsert db.addr_index street_id
              (hmRemove hn_map address.house_number)) sid).bind
            (fun m => hmGet m hn) = some aid := hg1
        rw [hmGet_dropOrInsert db.addr_index street_id sid
          ((hmRemove hn_map address.house_number).isEmpty)
          (hmRemove hn_map address.house_number)] at hg2
        by_cases hsid2 : sid = street_id
        · rw [if_pos hsid2] at hg2
          have hinner : hmGet (hmRemove hn_map address.house_number) hn =
              some aid := by
            cases he : (hmRemove hn_map address.house_number).isEmpty with
            | true =>
              rw [he] at hg2
              exact absurd hg2 (by simp)
            | false =>
              rw [he] at hg2
              simpa using hg2
          have hhn_ne : hn ≠ address.house_number := by
            intro hh
            rw [hh, hmGet_remove_self] at hinner
            exact absurd hinner (by simp)
          rw [hmGet_remove_ne hn_map address.house_number hn hhn_ne] at hinner
          have hold : (hmGet db.addr_index sid).bind (fun m => hmGet m hn) =
              some aid := by
            rw [hsid2, hsi]
            simpa using hinner
          obtain ⟨a', ha', hhn, hstr'⟩ := hwf.addr_sound sid hn aid hsid hold
          have hne : aid ≠ id := by
            intro hh
            rw [hsame aid a' ha' hh] at hhn
            exact hhn_ne hhn.symm
          refine ⟨a', ?_, hhn, hstr'⟩
          rw [hget2 aid, if_neg hne]
          exact ha'
        · rw [if_neg hsid2] at hg2
          obtain ⟨a', ha', hhn, hstr'⟩ := hwf.addr_sound sid hn aid hsid hg2
          have hne : aid ≠ id := by
            intro hh
            rw [hsame aid a' ha' hh, hstr] at hstr'
            injection hstr' with hstr'
            exact hsid2 hstr'.symm
          refine ⟨a', ?_, hhn, hstr'⟩
          rw [hget2 aid, if_neg hne]
          exact ha'
  · intro f aid
    rw [hfix]
    cases hfl : address.estimated_flats with
    | none =>
      show (∃ s, hmGet db.estimated_flats_index f = some s ∧ aid ∈ s) ↔
        ∃ a, hmGet db'.addresses aid = some a ∧ a.estimated_flats = some f
      rw [hwf.flats_exact f aid]
      constructor
      · rintro ⟨a', ha', hfa'⟩
        have hne : aid ≠ id := by
          intro hh
          rw [hsame aid a' ha' hh, hfl] at hfa'
          exact absurd hfa' (by simp)
        refine ⟨a', ?_, hfa'⟩
        rw [hget2 aid, if_neg hne]
        exact ha'
      · rintro ⟨a', ha', hfa'⟩
        rw [hget2 aid] at ha'
        by_cases hh : aid = id
        · rw [if_pos hh] at ha'
          exact absurd ha' (by simp)
        · rw [if_neg hh] at ha'
          exact ⟨a', ha', hfa'⟩
    | some flats =>
      cases hfi : hmGet db.estimated_flats_index flats with
      | none =>
        obtain ⟨s0, hs0, _⟩ := (hwf.flats_exact flats id).mpr ⟨address, hget, hfl⟩
        rw [hfi] at hs0
        exact absurd hs0 (by simp)
      | some id_set =>
        constructor
        · rintro ⟨s, hs, hmems⟩
          have hs1 : hmGet (match hmGet db.estimated_flats_index flats with
              | none => db.estimated_flats_index
              | some id_set =>
                if (hsRemove id_set id).isEmpty then
                  hmRemove db.estimated_flats_index flats
                else hmInsert db.estimated_flats_index flats (hsRemove id_set id)) f =
              some s := hs
          rw [hfi] at hs1
          have hs2 : hmGet (if (hsRemove id_set id).isEmpty
              then hmRemove db.estimated_flats_index flats
              else hmInsert db.estimated_flats_index flats (hsRemove id_set id)) f =
              some s := hs1
          rw [hmGet_dropOrInsert db.estimated_flats_index flats f
            ((hsRemove id_set id).isEmpty) (hsRemove id_set id)] at hs2
          by_cases hf : f = flats
          · rw [if_pos hf] at hs2
            have hmem' : aid ∈ hsRemove id_set id := by
              cases he : (hsRemove id_set id).isEmpty with
              | true =>
                rw [he] at hs2
                exact absurd hs2 (by simp)
              | false =>
                rw [he] at hs2
                injection hs2 with hs2
                rw [hs2]
                exact hmems
            rw [mem_hsRemove] at hmem'
            obtain ⟨a', ha', hfa'⟩ :=
              (hwf.flats_exact flats aid).mp ⟨id_set, hfi, hmem'.1⟩
            refine ⟨a', ?_, hf ▸ hfa'⟩
            rw [hget2 aid, if_neg hmem'.2]
            exact ha'
          · rw [if_neg hf] at hs2
            obtain ⟨a', ha', hfa'⟩ := (hwf.flats_exact f aid).mp ⟨s, hs2, hmems⟩
            have hne : aid ≠ id := by
              intro hh
              rw [hsame aid a' ha' hh, hfl] at hfa'
              injection hfa' with hfa'
              exact hf hfa'.symm
            refine ⟨a', ?_, hfa'⟩
            rw [hget2 aid, if_neg hne]
            exact ha'
        · rintro ⟨a', ha', hfa'⟩
          rw [hget2 aid] at ha'
          by_cases hh : aid = id
          · rw [if_pos hh] at ha'
            exact absurd ha' (by simp)
          · rw [if_neg hh] at ha'
            obtain ⟨s0, hs0, hmem0⟩ := (hwf.flats_exact f aid).mpr ⟨a', ha', hfa'⟩
            show ∃ s, hmGet (match hmGet db.estimated_flats_index flats with
                | none => db.estimated_flats_index
                | some id_set =>
                  if (hsRemove id_set id).isEmpty then
                    hmRemove db.estimated_flats_index flats
                  else hmInsert db.estimated_flats_index flats
                    (hsRemove id_set id)) f = some s ∧ aid ∈ s
            rw [hfi]
            show ∃ s, hmGet (if (hsRemove id_set id).isEmpty
                then hmRemove db.estimated_flats_index flats
                else hmInsert db.estimated_flats_index flats
                  (hsRemove id_set id)) f = some s ∧ aid ∈ s
            rw [hmGet_dropOrInsert db.estimated_flats_index flats f
              ((hsRemove id_set id).isEmpty) (hsRemove id_set id)]
            by_cases hf : f = flats
            · rw [if_pos hf]
              have hset : s0 = id_set := by
                rw [hf, hfi] at hs0
                injection hs0 with h
                exact h.symm
              have hmem1 : aid ∈ hsRemove id_set id := by
                rw [mem_hsRemove]
                exact ⟨hset ▸ hmem0, hh⟩
              rw [exists_ite_none_mem]
              exact hmem1
            · rw [if_neg hf]
              exact ⟨s0, hs0, hmem0⟩
  · rw [hpix, haddr]
    have hlp : lookupPointOf address =
        { id := id, x := i32_of_u32 address.position.x,
          y := i32_of_u32 address.position.y } := by
      rw [lookupPointOf, haid]
    have hvals := hm_remove_values lookupPointOf db.addresses id address
      hwf.keys_nodup hget
    rw [← Multiset.coe_erase, hwf.pos_exact, hvals, ← hlp,
      Multiset.erase_cons_head]

/-- Closed form of collecting `(addr.id, addr)` pairs into the map:
with fresh, duplicate-free ids the fold is reversed consing. -/
theorem foldl_hmInsert_addresses :
    ∀ (l : List Address) (acc : List (Uuid × Address)),
    (∀ a ∈ l, ∀ p ∈ acc, p.1 ≠ a.id) → (l.map (fun a => a.id)).Nodup →
    l.foldl (fun m addr => hmInsert m addr.id addr) acc =
      (l.map (fun a => (a.id, a))).reverse ++ acc := by
  intro l
  induction l with
  | nil => intro acc _ _; rfl
  | cons a l ih =>
    intro acc hfresh hnd
    rw [List.map_cons, List.nodup_cons] at hnd
    have hstep : hmInsert acc a.id a = (a.id, a) :: acc := by
      refine hmInsert_of_get_none a ((hmGet_none_iff acc a.id).mpr ?_)
      exact fun p hp => hfresh a (List.mem_cons_self a l) p hp
    rw [List.foldl_cons, hstep,
      ih ((a.id, a) :: acc) ?_ hnd.2, List.map_cons, List.reverse_cons,
      List.append_assoc]
    · rfl
    · intro b hb p hp
      rcases List.mem_cons.mp hp with hp | hp
      · rw [hp]
        intro hh
        have hh' : a.id = b.id := hh
        exact hnd.1 (show a.id ∈ l.map (fun a => a.id) by
          rw [hh']
          exact List.mem_map.mpr ⟨b, hb, rfl⟩)
      · exact hfresh b (List.mem_cons_of_mem a hb) p hp

/-- The street-index build pass is sound: every indexed id comes from
an input address assigned to that street (or from the accumulator). -/
theorem build_street_sound :
    ∀ (l : List Address) (acc : List (Uuid × List Uuid)) (sid : Uuid)
      (s : List Uuid) (aid : Uuid),
    hmGet (l.foldl (fun map addr => match addr.assigned_street_id with
      | some street_id =>
        hmInsert map street_id (hsInsert ((hmGet map street_id).getD []) addr.id)
      | none => map) acc) sid = some s → aid ∈ s →
    (∃ s₀, hmGet acc sid = some s₀ ∧ aid ∈ s₀) ∨
      ∃ a ∈ l, a.id = aid ∧ a.assigned_street_id = some sid := by
  intro l
  induction l with
  | nil =>
    intro acc sid s aid hs hmem
    exact Or.inl ⟨s, hs, hmem⟩
  | cons a l ih =>
    intro acc sid s aid hs hmem
    rw [List.foldl_cons] at hs
    rcases ih _ sid s aid hs hmem with ⟨s₀, hs₀, hmem₀⟩ | ⟨b, hb, hbid, hbstr⟩
    · cases ha : a.assigned_street_id with
      | none =>
        rw [ha] at hs₀
        exact Or.inl ⟨s₀, hs₀, hmem₀⟩
      | some street_id =>
        rw [ha] at hs₀
        by_cases hk : sid = street_id
        · subst hk
          rw [hmGet_insert_self] at hs₀
          injection hs₀ with hs₀
          rw [← hs₀, mem_hsInsert] at hmem₀
          rcases hmem₀ with rfl | hmem₀
          · exact Or.inr ⟨a, List.mem_cons_self a l, rfl, ha⟩
          · cases hm : hmGet acc sid with
            | none =>
              rw [hm] at hmem₀
              exact absurd hmem₀ (List.not_mem_nil aid)
            | some s₁ =>
              rw [hm] at hmem₀
              exact Or.inl ⟨s₁, rfl, by simpa using hmem₀⟩
        · rw [hmGet_insert_ne _ _ _ _ hk] at hs₀
          exact Or.inl ⟨s₀, hs₀, hmem₀⟩
    · exact Or.inr ⟨b, List.mem_cons_of_mem a hb, hbid, hbstr⟩

/-- The addr-index build pass is sound. -/
theorem build_addr_sound :
    ∀ (l : List Address) (acc : List (Uuid × List (String × Uuid)))
      (sid : Uuid) (hn : String) (aid : Uuid),
    (hmGet (l.foldl (fun map addr =>
      hmInsert map (addr.assigned_street_id.getD uuidNil)
        (hmInsert ((hmGet map (addr.assigned_street_id.getD uuidNil)).getD [])
          addr.house_number addr.id)) acc) sid).bind (fun m => hmGet m hn) =
      some aid →
    ((hmGet acc sid).bind (fun m => hmGet m hn) = some aid) ∨
      ∃ a ∈ l, a.id = aid ∧ a.house_number = hn ∧
        a.assigned_street_id.getD uuidNil = sid := by
  intro l
  induction l with
  | nil =>
    intro acc sid hn aid hs
    exact Or.inl hs
  | cons a l ih =>
    intro acc sid hn aid hs
    rw [List.foldl_cons] at hs
    rcases ih _ sid hn aid hs with hacc | ⟨b, hb, h1, h2, h3⟩
    · by_cases hk : sid = a.assigned_street_id.getD uuidNil
      · rw [hk, hmGet_insert_self, Option.some_bind] at hacc
        by_cases hh : hn = a.house_number
        · rw [hh, hmGet_insert_self] at hacc
          injection hacc with hacc
          exact Or.inr ⟨a, List.mem_cons_self a l, hacc, hh.symm, hk.symm⟩
        · rw [hmGet_insert_ne _ _ _ _ hh] at hacc
          cases hm : hmGet acc (a.assigned_street_id.getD uuidNil) with
          | none =>
            rw [hm] at hacc
            exact absurd hacc (by simp [hmGet])
          | some m0 =>
            rw [hm] at hacc
            refine Or.inl ?_
            rw [hk, hm]
            simpa using hacc
      · rw [hmGet_insert_ne _ _ _ _ hk] at hacc
        exact Or.inl hacc
    · exact Or.inr ⟨b, List.mem_cons_of_mem a hb, h1, h2, h3⟩

/-- One step of the flats-index build, characterised exactly. -/
theorem step_flats_char (acc : List (Nat × List Uuid)) (i : Uuid) (fl f : Nat)
    (aid : Uuid) :
    (∃ s, hmGet (hmInsert acc fl (hsInsert ((hmGet acc fl).getD []) i)) f =
      some s ∧ aid ∈ s) ↔
    ((∃ s, hmGet acc f = some s ∧ aid ∈ s) ∨ (aid = i ∧ f = fl)) := by
  by_cases hf : f = fl
  · subst hf
    rw [show hmGet (hmInsert acc f (hsInsert ((hmGet acc f).getD []) i)) f =
        some (hsInsert ((hmGet acc f).getD []) i) from hmGet_insert_self _ _ _]
    constructor
    · rintro ⟨s, hs, hmem⟩
      injection hs with hs
      rw [← hs, mem_hsInsert] at hmem
      rcases hmem with rfl | hmem
      · exact Or.inr ⟨rfl, rfl⟩
      · cases hm : hmGet acc f with
        | none =>
          rw [hm] at hmem
          exact absurd hmem (List.not_mem_nil aid)
        | some s₀ =>
          rw [hm] at hmem
          exact Or.inl ⟨s₀, rfl, by simpa using hmem⟩
    · rintro (⟨s₀, hs₀, hmem₀⟩ | ⟨rfl, -⟩)
      · refine ⟨_, rfl, ?_⟩
        rw [mem_hsInsert]
        right
        rw [hs₀]
        exact hmem₀
      · refine ⟨_, rfl, ?_⟩
        rw [mem_hsInsert]
        exact Or.inl rfl
  · rw [hmGet_insert_ne _ _ _ _ hf]
    constructor
    · rintro ⟨s, hs, hmem⟩
      exact Or.inl ⟨s, hs, hmem⟩
    · rintro (⟨s, hs, hmem⟩ | ⟨-, hff⟩)
      · exact ⟨s, hs, hmem⟩
      · exact absurd hff hf

/-- The flats-index build pass is exact over the collected pairs. -/
theorem build_flats_mem :
    ∀ (pairs : List (Uuid × Nat)) (acc : List (Nat × List Uuid)) (f : Nat)
      (aid : Uuid),
    (∃ s, hmGet (pairs.foldl (fun map addr =>
      hmInsert map addr.2 (hsInsert ((hmGet map addr.2).getD []) addr.1)) acc) f =
      some s ∧ aid ∈ s) ↔
    ((∃ s, hmGet acc f = some s ∧ aid ∈ s) ∨ (aid, f) ∈ pairs) := by
  intro pairs
  induction pairs with
  | nil =>
    intro acc f aid
    simp
  | cons p ps ih =>
    intro acc f aid
    obtain ⟨i, fl⟩ := p
    rw [List.foldl_cons]
    rw [ih _ f aid, step_flats_char acc i fl f aid]
    constructor
    · rintro ((hacc | ⟨rfl, rfl⟩) | hps)
      · exact Or.inl hacc
      · exact Or.inr (List.mem_cons_self _ _)
      · exact Or.inr (List.mem_cons_of_mem _ hps)
    · rintro (hacc | hmem)
      · exact Or.inl (Or.inl hacc)
      · rcases List.mem_cons.mp hmem with heq | hps
        · injection heq with e1 e2
          exact Or.inl (Or.inr ⟨e1, e2⟩)
        · exact Or.inr hps

/-- `AddressDatabase::from_addresses` establishes the invariant on an
input with pairwise-distinct ids. -/
theorem wf_from_addresses (l : List Address)
    (hnd : (l.map (fun a => a.id)).Nodup) :
    AddressDatabase.WF (AddressDatabase.from_addresses l) := by
  have haddr : (AddressDatabase.from_addresses l).addresses =
      (l.map (fun a => (a.id, a))).reverse := by
    show l.foldl (fun m addr => hmInsert m addr.id addr) [] = _
    rw [foldl_hmInsert_addresses l []
      (fun a _ p hp => absurd hp (List.not_mem_nil p)) hnd]
    exact List.append_nil _
  have hkeys : ((AddressDatabase.from_addresses l).addresses.map Prod.fst) =
      (l.map (fun a => a.id)).reverse := by
    rw [haddr, List.map_reverse, List.map_map]
    rfl
  have hkeys_nd : ((AddressDatabase.from_addresses l).addresses.map Prod.fst).Nodup := by
    rw [hkeys]
    exact List.nodup_reverse.mpr hnd
  have hget_iff : ∀ aid (a : Address),
      hmGet (AddressDatabase.from_addresses l).addresses aid = some a ↔
        (a ∈ l ∧ a.id = aid) := by
    intro aid a
    rw [hmGet_eq_some_iff_mem hkeys_nd aid a, haddr, List.mem_reverse,
      List.mem_map]
    constructor
    · rintro ⟨b, hb, hba⟩
      injection hba with h1 h2
      subst h2
      exact ⟨hb, h1⟩
    · rintro ⟨ha, hid⟩
      exact ⟨a, ha, by rw [hid]⟩
  refine ⟨?_, ?_, ?_, ?_, ?_, ?_⟩
  · intro p hp
    rw [haddr, List.mem_reverse, List.mem_map] at hp
    obtain ⟨a, _, hap⟩ := hp
    rw [← hap]
  · exact hkeys_nd
  · intro sid s hs aid hmemaid
    have hs' : hmGet (l.foldl (fun map addr => match addr.assigned_street_id with
        | some street_id =>
          hmInsert map street_id
            (hsInsert ((hmGet map street_id).getD []) addr.id)
        | none => map) []) sid = some s := hs
    rcases build_street_sound l [] sid s aid hs' hmemaid with ⟨s₀, hs₀, _⟩ | h
    · exact absurd hs₀ (by simp [hmGet])
    · obtain ⟨a, hal, haid2, hastr⟩ := h
      exact ⟨a, (hget_iff aid a).mpr ⟨hal, haid2⟩, hastr⟩
  · intro sid hn aid hsid hgeti
    have hg' : (hmGet (l.foldl (fun map addr =>
        hmInsert map (addr.assigned_street_id.getD uuidNil)
          (hmInsert ((hmGet map (addr.assigned_street_id.getD uuidNil)).getD [])
            addr.house_number addr.id)) []) sid).bind (fun m => hmGet m hn) =
        some aid := hgeti
    rcases build_addr_sound l [] sid hn aid hg' with hacc | h
    · exact absurd hacc (by simp [hmGet])
    · obtain ⟨a, hal, haid2, hahn, hastr⟩ := h
      refine ⟨a, (hget_iff aid a).mpr ⟨hal, haid2⟩, hahn, ?_⟩
      cases ha : a.assigned_street_id with
      | none =>
        rw [ha] at hastr
        simp only [Option.getD_none] at hastr
        exact absurd hastr.symm hsid
      | some s' =>
        rw [ha] at hastr
        simp only [Option.getD_some] at hastr
        rw [hastr]
  · intro f aid
    have hiff : (∃ s, hmGet ((l.filterMap (fun a =>
        a.estimated_flats.map (fun flats => (a.id, flats)))).foldl
        (fun map addr =>
          hmInsert map addr.2 (hsInsert ((hmGet map addr.2).getD []) addr.1)) []) f =
        some s ∧ aid ∈ s) ↔
        ((∃ s, hmGet ([] : List (Nat × List Uuid)) f = some s ∧ aid ∈ s) ∨
          (aid, f) ∈ l.filterMap (fun a =>
            a.estimated_flats.map (fun flats => (a.id, flats)))) :=
      build_flats_mem _ [] f aid
    show (∃ s, hmGet ((l.filterMap (fun a =>
        a.estimated_flats.map (fun flats => (a.id, flats)))).foldl
        (fun map addr =>
          hmInsert map addr.2 (hsInsert ((hmGet map addr.2).getD []) addr.1)) []) f =
        some s ∧ aid ∈ s) ↔ _
    rw [hiff]
    have hmem_iff : (aid, f) ∈ l.filterMap (fun a =>
        a.estimated_flats.map (fun flats => (a.id, flats))) ↔
        ∃ a ∈ l, a.id = aid ∧ a.estimated_flats = some f := by
      rw [List.mem_filterMap]
      constructor
      · rintro ⟨a, hal, hmap⟩
        rw [Option.map_eq_some'] at hmap
        obtain ⟨fl, hfl, heq⟩ := hmap
        injection heq with e1 e2
        subst e2
        exact ⟨a, hal, e1, hfl⟩
      · rintro ⟨a, hal, hid, hfl⟩
        refine ⟨a, hal, ?_⟩
        rw [hfl, hid]
        rfl
    constructor
    · rintro (⟨s, hs, _⟩ | hmem)
      · exact absurd hs (by simp [hmGet])
      · obtain ⟨a, hal, hid, hfl⟩ := hmem_iff.mp hmem
        exact ⟨a, (hget_iff aid a).mpr ⟨hal, hid⟩, hfl⟩
    · rintro ⟨a, ha, hfl⟩
      obtain ⟨hal, hid⟩ := (hget_iff aid a).mp ha
      exact Or.inr (hmem_iff.mpr ⟨a, hal, hid, hfl⟩)
  · show ((l.map lookupPointOf : List LookupPoint) : Multiset LookupPoint) = _
    rw [haddr, List.map_reverse, List.map_map]
    rw [show ((fun p : Uuid × Address => lookupPointOf p.2) ∘
        (fun a : Address => (a.id, a))) = lookupPointOf from rfl]
    exact (Multiset.coe_reverse _).symm

/-- `AddressDatabase::remove` preserves the invariant. -/
theorem wf_remove (db : AddressDatabase) (id : Uuid)
    (hwf : AddressDatabase.WF db) :
    AddressDatabase.WF (AddressDatabase.remove db id).2 := by
  cases hget : hmGet db.addresses id with
  | none =>
    simp only [AddressDatabase.remove, hget]
    exact hwf
  | some address =>
    simp only [AddressDatabase.remove, hget]
    exact wf_remove_aux db id address _ hwf hget rfl rfl rfl rfl rfl

/-- C10 counterexample: the empty database satisfies street-index
exactness, but inserting a street-assigned address (`sampleAddr`,
street 5) yields a state that violates it, because
`AddressDatabase::insert` never touches `street_index`. -/
theorem insert_breaks_street_index_exact :
    AddressDatabase.street_index_exact AddressDatabase.new ∧
    ∃ db', AddressDatabase.insert AddressDatabase.new sampleAddr = some db' ∧
      ¬ AddressDatabase.street_index_exact db' := by
  constructor
  · intro sid aid
    constructor
    · rintro ⟨s, hs, -⟩
      exact Option.noConfusion hs
    · rintro ⟨a, ha, -⟩
      exact Option.noConfusion ha
  · refine ⟨_, rfl, ?_⟩
    intro hex
    rcases (hex 5 7).mpr ⟨sampleAddr, by decide, rfl⟩ with ⟨s, hs, -⟩
    exact Option.noConfusion hs

/-- C10 (amended): every reachable `AddressDatabase` state — `new`,
`from_addresses` on an input with pairwise-distinct ids, and any
sequence of `insert`s (whose id-freshness assertion passes) and
`remove`s — satisfies the invariant `WF`: the addresses-map keys agree
with the stored addresses' ids, `position_index` and
`estimated_flats_index` agree exactly with the addresses map, and
`street_index` and (off the nil key) `addr_index` are sound — every
entry names a stored address with the matching street resp.
(street, house number).  Exactness of `street_index` is not preserved
(see `insert_breaks_street_index_exact`). -/
theorem addressDatabase_index_invariants (db : AddressDatabase)
    (h : AddressDatabase.Reach db) : AddressDatabase.WF db := by
  induction h with
  | init => exact wf_new
  | fromAddresses l hnd => exact wf_from_addresses l hnd
  | insertOp db a db' _ hins ih => exact wf_insert db a db' ih hins
  | removeOp db id _ ih => exact wf_remove db id ih

/-- Witness for C10: the database built from the one-element list
`[sampleAddr]` is reachable and well-formed. -/
theorem addressDatabase_index_invariants_witness :
    AddressDatabase.Reach (AddressDatabase.from_addresses [sampleAddr]) ∧
      AddressDatabase.WF (AddressDatabase.from_addresses [sampleAddr]) :=
  ⟨AddressDatabase.Reach.fromAddresses [sampleAddr] (by decide),
    addressDatabase_index_invariants (AddressDatabase.from_addresses [sampleAddr])
      (AddressDatabase.Reach.fromAddresses [sampleAddr] (by decide))⟩

end AddressDb

/-- The running maximum taken inside `sqlMaxNum` dominates the start. -/
theorem foldl_max_start_le (l : List TeamRow) (a : Int) :
    a ≤ l.foldl (fun m r => max m r.num) a := by
  induction l generalizing a with
  | nil => exact le_refl a
  | cons r l ih => exact le_trans (le_max_left a r.num) (ih (max a r.num))

/-- Every listed team's `num` is bounded by the running maximum. -/
theorem foldl_max_le (l : List TeamRow) (a : Int) :
    ∀ r ∈ l, r.num ≤ l.foldl (fun m r => max m r.num) a := by
  induction l generalizing a with
  | nil => intro r h; exact absurd h (List.not_mem_nil r)
  | cons q l ih =>
    intro r h
    rcases List.mem_cons.mp h with h | h
    · subst h
      exact le_trans (le_max_right a r.num) (foldl_max_start_le l (max a r.num))
    · exact ih (max a q.num) r h

/-- The running maximum is attained: it is the start or some `num`. -/
theorem foldl_max_attained (l : List TeamRow) (a : Int) :
    l.foldl (fun m r => max m r.num) a = a ∨
      ∃ r ∈ l, l.foldl (fun m r => max m r.num) a = r.num := by
  induction l generalizing a with
  | nil => exact Or.inl rfl
  | cons q l ih =>
    rcases ih (max a q.num) with h | ⟨r, hr, h⟩
    · simp only [List.foldl_cons] at *
      rcases max_choice a q.num with hm | hm
      · exact Or.inl (h.trans hm)
      · exact Or.inr ⟨q, List.mem_cons_self q l, h.trans hm⟩
    · exact Or.inr ⟨r, List.mem_cons_of_mem q hr, by simpa using h⟩

/-- `sqlMaxNum` on a nonempty list is the fold of `max` over the tail
started at the head's `num`. -/
theorem sqlMaxNum_cons (r : TeamRow) (l : List TeamRow) :
    TeamRepo.sqlMaxNum (r :: l) =
      some (l.foldl (fun m q => max m q.num) r.num) := by
  show List.foldl _ (some r.num) l = _
  induction l generalizing r with
  | nil => rfl
  | cons q l ih =>
    simp only [List.foldl_cons]
    exact ih { r with num := max r.num q.num }

/-- C8: `add_team` appends exactly one team row to the handle's Area,
whose `num` is 0 when the Area has no teams and `m + 1` when `m` is the
maximum existing team number of the Area; in particular the new number
is strictly above every existing number of the Area, so team numbers
stay unique within their Area. -/
theorem add_team_max_plus_one (db : Db) (area_id : Int) :
    ∃ row : TeamRow,
      (TeamRepo.add_team db area_id).2.teams = db.teams ++ [row] ∧
      (TeamRepo.add_team db area_id).1 = row.toTeam ∧
      row.area_id = area_id ∧
      (db.teams.filter (fun r => r.area_id == area_id) = [] → row.num = 0) ∧
      (∀ r₀ ∈ db.teams, r₀.area_id = area_id →
        (∀ r ∈ db.teams, r.area_id = area_id → r.num ≤ r₀.num) →
        row.num = r₀.num + 1) ∧
      (∀ r ∈ db.teams, r.area_id = area_id → r.num < row.num) := by
  refine ⟨_, rfl, rfl, rfl, ?_, ?_, ?_⟩
  · intro hnil
    simp [TeamRepo.add_team, hnil, TeamRepo.sqlMaxNum]
  · intro r₀ hmem harea hmax
    have hfil : r₀ ∈ db.teams.filter (fun r => r.area_id == area_id) :=
      List.mem_filter.mpr ⟨hmem, by simp [harea]⟩
    simp only [TeamRepo.add_team]
    obtain ⟨q, l, hql⟩ : ∃ q l, db.teams.filter (fun r => r.area_id == area_id) = q :: l := by
      cases hfl : db.teams.filter (fun r => r.area_id == area_id) with
      | nil => rw [hfl] at hfil; exact absurd hfil (List.not_mem_nil r₀)
      | cons q l => exact ⟨q, l, rfl⟩
    rw [hql, sqlMaxNum_cons]
    have hle : l.foldl (fun m r => max m r.num) q.num ≤ r₀.num := by
      rcases foldl_max_attained l q.num with h | ⟨r, hr, h⟩
      · rw [h]
        have hq : q ∈ db.teams.filter (fun r => r.area_id == area_id) := by
          rw [hql]; exact List.mem_cons_self q l
        have := List.mem_filter.mp hq
        exact hmax q this.1 (by simpa using this.2)
      · rw [h]
        have hrmem : r ∈ db.teams.filter (fun r => r.area_id == area_id) := by
          rw [hql]; exact List.mem_cons_of_mem q hr
        have := List.mem_filter.mp hrmem
        exact hmax r this.1 (by simpa using this.2)
    have hge : r₀.num ≤ l.foldl (fun m r => max m r.num) q.num := by
      rw [hql] at hfil
      rcases List.mem_cons.mp hfil with h | h
      · rw [h]; exact foldl_max_start_le l _
      · exact foldl_max_le l q.num r₀ h
    simp [le_antisymm hle hge]
  · intro r hmem harea
    have hfil : r ∈ db.teams.filter (fun q => q.area_id == area_id) :=
      List.mem_filter.mpr ⟨hmem, by simp [harea]⟩
    simp only [TeamRepo.add_team]
    obtain ⟨q, l, hql⟩ : ∃ q l, db.teams.filter (fun q => q.area_id == area_id) = q :: l := by
      cases hfl : db.teams.filter (fun q => q.area_id == area_id) with
      | nil => rw [hfl] at hfil; exact absurd hfil (List.not_mem_nil r)
      | cons q l => exact ⟨q, l, rfl⟩
    rw [hql, sqlMaxNum_cons]
    rw [hql] at hfil
    have : r.num ≤ l.foldl (fun m q => max m q.num) q.num := by
      rcases List.mem_cons.mp hfil with h | h
      · rw [h]; exact foldl_max_start_le l _
      · exact foldl_max_le l q.num r h
    simp only [Option.getD_some]
    omega

/-- Witness for `add_team_max_plus_one`: in an Area with a single team
numbered 3, the next team gets number 4 (= max + 1). -/
theorem add_team_max_plus_one_witness :
    ∃ row : TeamRow,
      (TeamRepo.add_team { Db.empty with
          teams := [{ id := 1, area_id := 5, num := 3 }] } 5).2.teams =
        [{ id := 1, area_id := 5, num := 3 }] ++ [row] ∧
      row.num = 3 + 1 := by
  obtain ⟨row, h1, _, _, _, h5, _⟩ := add_team_max_plus_one
    { Db.empty with teams := [{ id := 1, area_id := 5, num := 3 }] } 5
  refine ⟨row, h1, ?_⟩
  refine h5 { id := 1, area_id := 5, num := 3 } (by decide) rfl ?_
  intro r h harea
  have : r = { id := 1, area_id := 5, num := 3 } := by
    simpa using h
  rw [this]

/-- C6: `get_team_by_id`, `get_street_by_id` and `get_address_by_id`
return `none` (not an error) when no row of the handle's Area has the
requested id; but `BoundAreaRepository::get_area` on a handle whose
Area row no longer exists returns a hard error naming the id. -/
theorem get_by_id_absent_none_but_bound_area_errors :
    (∀ (db : Db) (area_id id : Int),
      (∀ r ∈ db.teams, ¬(r.area_id = area_id ∧ r.id = id)) →
      TeamRepo.get_team_by_id db area_id id = none) ∧
    (∀ (db : Db) (area_id id : Int),
      (∀ r ∈ db.streets, ¬(r.area_id = area_id ∧ r.id = id)) →
      StreetRepo.get_street_by_id db area_id id = none) ∧
    (∀ (db : Db) (area_id id : Int),
      (∀ r ∈ db.addresses, ¬(r.area_id = area_id ∧ r.id = id)) →
      AddressRepo.get_address_by_id db area_id id = none) ∧
    (∀ (db : Db) (area_id : Int),
      (∀ r ∈ db.areas, r.id ≠ area_id) →
      BoundAreaRepo.get_area db area_id = .error (.areaNotFound area_id)) := by
  refine ⟨?_, ?_, ?_, ?_⟩
  · intro db area_id id h
    have : db.teams.find? (fun r => r.area_id == area_id && r.id == id) = none := by
      rw [List.find?_eq_none]
      intro r hr
      simpa using h r hr
    simp [TeamRepo.get_team_by_id, this]
  · intro db area_id id h
    have : db.streets.find? (fun r => r.area_id == area_id && r.id == id) = none := by
      rw [List.find?_eq_none]
      intro r hr
      simpa using h r hr
    simp [StreetRepo.get_street_by_id, this]
  · intro db area_id id h
    have : db.addresses.find? (fun r => r.area_id == area_id && r.id == id) = none := by
      rw [List.find?_eq_none]
      intro r hr
      simpa using h r hr
    simp [AddressRepo.get_address_by_id, this]
  · intro db area_id h
    have : db.areas.find? (fun r => r.id == area_id) = none := by
      rw [List.find?_eq_none]
      intro r hr
      simpa using h r hr
    simp [BoundAreaRepo.get_area, this]

/-- Filtering for an owner after the replace pattern (delete the
owner's rows, append fresh rows of that owner) yields exactly the
fresh rows. -/
theorem filter_replace_self (old new : List VertexRow) (oid : Int)
    (hnew : ∀ r ∈ new, r.owner_id = oid) :
    (old.filter (fun r => !(r.owner_id == oid)) ++ new).filter
      (fun r => r.owner_id == oid) = new := by
  rw [List.filter_append]
  have h1 : (old.filter (fun r => !(r.owner_id == oid))).filter
      (fun r => r.owner_id == oid) = [] := by
    rw [List.filter_filter]
    have : ∀ r ∈ old, ((r.owner_id == oid) && !(r.owner_id == oid)) = false := by
      intro r _
      cases h : (r.owner_id == oid) <;> simp [h]
    calc old.filter (fun r => (r.owner_id == oid) && !(r.owner_id == oid))
        = old.filter (fun _ => false) := List.filter_congr this
      _ = [] := List.filter_false old
  have h2 : new.filter (fun r => r.owner_id == oid) = new :=
    List.filter_eq_self.mpr (fun r hr => by simp [hnew r hr])
  rw [h1, h2, List.nil_append]

/-- Filtering for a different owner after the replace pattern sees the
original rows of that owner. -/
theorem filter_replace_other (old new : List VertexRow) (oid s : Int)
    (hnew : ∀ r ∈ new, r.owner_id = oid) (hne : s ≠ oid) :
    (old.filter (fun r => !(r.owner_id == oid)) ++ new).filter
      (fun r => r.owner_id == s) = old.filter (fun r => r.owner_id == s) := by
  rw [List.filter_append]
  have h1 : (old.filter (fun r => !(r.owner_id == oid))).filter
      (fun r => r.owner_id == s) = old.filter (fun r => r.owner_id == s) := by
    rw [List.filter_comm]
    have : ∀ r ∈ old.filter (fun r => r.owner_id == s), (!(r.owner_id == oid)) = true := by
      intro r hr
      have := (List.mem_filter.mp hr).2
      simp only [beq_iff_eq] at this
      simp [this, hne]
    exact List.filter_eq_self.mpr this
  have h2 : new.filter (fun r => r.owner_id == s) = [] := by
    rw [List.filter_eq_nil_iff]
    intro r hr
    simp [hnew r hr, Ne.symm hne]
  rw [h1, h2, List.append_nil]

/-- The positions in `enumFrom` are at least the start index. -/
theorem mem_enumFrom_fst_le {α : Type} (ps : List α) (k : Nat) :
    ∀ x ∈ List.enumFrom k ps, k ≤ x.1 :=
  fun _ h => List.le_fst_of_mem_enumFrom h

/-- `enumFrom` is sorted (strictly, hence weakly) on the index. -/
theorem pairwise_enumFrom_le {α : Type} (ps : List α) (k : Nat) :
    (List.enumFrom k ps).Pairwise (fun a b => a.1 ≤ b.1) := by
  induction ps generalizing k with
  | nil => exact List.Pairwise.nil
  | cons p ps ih =>
    refine List.Pairwise.cons ?_ (ih (k + 1))
    intro x hx
    exact le_trans (Nat.le_succ k) (List.le_fst_of_mem_enumFrom hx)

/-- The vertex rows inserted by the replace pattern are already sorted
by position (SQL `ORDER BY position ASC` leaves them unchanged). -/
theorem sort_enum_rows (oid : Int) (ps : List Point) :
    List.insertionSort (fun a b : VertexRow => a.position ≤ b.position)
      (ps.enum.map (fun ip =>
        ({ owner_id := oid, position := ip.1, x := ip.2.x, y := ip.2.y } : VertexRow))) =
      ps.enum.map (fun ip =>
        ({ owner_id := oid, position := ip.1, x := ip.2.x, y := ip.2.y } : VertexRow)) := by
  apply List.Sorted.insertionSort_eq
  unfold List.Sorted
  rw [List.pairwise_map]
  exact pairwise_enumFrom_le ps 0

/-- Reading the inserted vertex rows back as points returns the
original list. -/
theorem map_back_enum_rows (oid : Int) (ps : List Point) :
    (ps.enum.map (fun ip =>
        ({ owner_id := oid, position := ip.1, x := ip.2.x, y := ip.2.y } : VertexRow))).map
      (fun r => ({ x := r.x, y := r.y } : Point)) = ps := by
  rw [List.map_map]
  have : ((fun r : VertexRow => ({ x := r.x, y := r.y } : Point)) ∘
      (fun ip : Nat × Point =>
        ({ owner_id := oid, position := ip.1, x := ip.2.x, y := ip.2.y } : VertexRow))) =
      Prod.snd := by
    funext ip
    rfl
  rw [this]
  exact List.enum_map_snd ps

/-- The rows the polyline/bounds getter collects and sorts after a
replace are exactly the freshly inserted rows, in insertion order. -/
theorem records_after_replace (old : List VertexRow) (oid : Int) (ps : List Point) :
    List.insertionSort (fun a b : VertexRow => a.position ≤ b.position)
      ((old.filter (fun r => !(r.owner_id == oid)) ++
        ps.enum.map (fun ip =>
          ({ owner_id := oid, position := ip.1, x := ip.2.x, y := ip.2.y } : VertexRow))).filter
        (fun r => r.owner_id == oid)) =
      ps.enum.map (fun ip =>
        ({ owner_id := oid, position := ip.1, x := ip.2.x, y := ip.2.y } : VertexRow)) := by
  have hmem : ∀ r ∈ ps.enum.map (fun ip =>
      ({ owner_id := oid, position := ip.1, x := ip.2.x, y := ip.2.y } : VertexRow)),
      r.owner_id = oid := by
    intro r hr
    obtain ⟨ip, _, hip⟩ := List.mem_map.mp hr
    rw [← hip]
  rw [filter_replace_self old _ oid hmem]
  exact sort_enum_rows oid ps

/-- `find?` over an append whose first part has no match. -/
theorem find?_append_of_none {α : Type} {p : α → Bool} {l₁ l₂ : List α}
    (h : l₁.find? p = none) : (l₁ ++ l₂).find? p = l₂.find? p := by
  induction l₁ with
  | nil => rfl
  | cons x l ih =>
    rw [List.find?_cons] at h
    cases hp : p x with
    | true => rw [hp] at h; exact absurd h (by simp)
    | false =>
      rw [hp] at h
      simpa [List.find?_cons, hp] using ih h

/-- After the UPDATE replaces the matching address rows by `R` (which
still matches), the SELECT's `find?` — whose `WHERE` clause lists the
same two conjuncts in the opposite order — returns `R`. -/
theorem find?_update_row (l : List AddressRow) (aid area : Int)
    (R : AddressRow) (r : AddressRow)
    (hfind : l.find? (fun q => q.area_id == area && q.id == aid) = some r)
    (hR : R.area_id = area) (hRid : R.id = aid) :
    (l.map (fun q => if q.id == aid && q.area_id == area then R else q)).find?
      (fun q => q.area_id == area && q.id == aid) = some R := by
  induction l with
  | nil => exact absurd hfind (by simp)
  | cons x l ih =>
    have hRmatch : (R.area_id == area && R.id == aid) = true := by simp [hR, hRid]
    cases hx : (x.area_id == area && x.id == aid) with
    | true =>
      have hhead : (if (x.id == aid && x.area_id == area) = true then R else x) = R := by
        rw [Bool.and_comm] at hx
        simp [hx]
      rw [List.map_cons, hhead]
      exact List.find?_cons_of_pos _ hRmatch
    | false =>
      have hx' : (x.id == aid && x.area_id == area) = false := by
        rw [Bool.and_comm]; exact hx
      have hhead : (if (x.id == aid && x.area_id == area) = true then R else x) = x := by
        simp [hx']
      have hfind' : List.find?
          (fun q : AddressRow => q.area_id == area && q.id == aid) l = some r := by
        have hstep := List.find?_cons_of_neg
          (p := fun q : AddressRow => q.area_id == area && q.id == aid)
          (a := x) l (by simp [hx])
        rw [hstep] at hfind
        exact hfind
      have hstep2 := List.find?_cons_of_neg
        (p := fun q : AddressRow => q.area_id == area && q.id == aid)
        (a := x)
        (List.map (fun q : AddressRow =>
          if (q.id == aid && q.area_id == area) = true then R else q) l)
        (by simp [hx])
      rw [List.map_cons, hhead, hstep2]
      exact ih hfind'

/-- The `u16 → i64 → u16` round trip of `estimated_flats` is the
identity on actual `u16` values. -/
theorem u16_roundtrip (v : Nat) (h : v < 65536) :
    (((v : Int)) % 65536).toNat = v := by
  omega

/-- Decoded `estimated_flats` values are within the u16 range. -/
theorem toAddress_flats_lt (r : AddressRow) :
    ∀ v ∈ r.toAddress.estimated_flats, v < 65536 := by
  intro v hv
  simp only [AddressRow.toAddress, Option.mem_def, Option.map_eq_some'] at hv
  obtain ⟨w, _, hw⟩ := hv
  omega

/-- C3: `add_address` returns an `Address` carrying exactly the
supplied `house_number`, `position`, `confidence`, `circle_radius`,
`estimated_flats` and `assigned_street_id`, with `verified` false, the
handle's `area_id`, and a fresh id; fetching that id afterwards returns
the very same `Address` on every field.  (`estimated_flats` values are
`u16` in the source, whence the bound hypothesis; id freshness needs
the row-id counter invariant.) -/
theorem add_address_roundtrip (db : Db) (area_id : Int) (n : NewAddress)
    (hflats : ∀ v ∈ n.estimated_flats, v < 65536)
    (hfresh : ∀ r ∈ db.addresses, r.id < db.next_address_id) :
    (AddressRepo.add_address db area_id n).1.house_number = n.house_number ∧
    (AddressRepo.add_address db area_id n).1.position = n.position ∧
    (AddressRepo.add_address db area_id n).1.confidence = n.confidence ∧
    (AddressRepo.add_address db area_id n).1.circle_radius = n.circle_radius ∧
    (AddressRepo.add_address db area_id n).1.estimated_flats = n.estimated_flats ∧
    (AddressRepo.add_address db area_id n).1.assigned_street_id = n.assigned_street_id ∧
    (AddressRepo.add_address db area_id n).1.verified = false ∧
    (AddressRepo.add_address db area_id n).1.area_id = area_id ∧
    (∀ r ∈ db.addresses, r.id ≠ (AddressRepo.add_address db area_id n).1.id) ∧
    AddressRepo.get_address_by_id (AddressRepo.add_address db area_id n).2 area_id
        (AddressRepo.add_address db area_id n).1.id =
      some (AddressRepo.add_address db area_id n).1 := by
  refine ⟨rfl, rfl, rfl, rfl, ?_, rfl, rfl, rfl, ?_, ?_⟩
  · show (n.estimated_flats.map (fun v => (v : Int))).map
        (fun v => (v % 65536).toNat) = n.estimated_flats
    cases hfl : n.estimated_flats with
    | none => rfl
    | some v =>
      have hv : v < 65536 := hflats v (by rw [hfl]; exact rfl)
      simp [u16_roundtrip v hv]
  · intro r hr
    exact Int.ne_of_lt (hfresh r hr)
  · show ((db.addresses ++ [_]).find? _).map AddressRow.toAddress = _
    have hnone : db.addresses.find?
        (fun r => r.area_id == area_id && r.id == (AddressRepo.add_address db area_id n).1.id) =
        none := by
      rw [List.find?_eq_none]
      intro r hr
      have hne : r.id ≠ db.next_address_id := Int.ne_of_lt (hfresh r hr)
      have hid : (AddressRepo.add_address db area_id n).1.id = db.next_address_id := rfl
      simp [hid, hne]
    rw [find?_append_of_none hnone]
    simp [List.find?_cons, AddressRepo.add_address, AddressRow.toAddress]

/-- Witness for `add_address_roundtrip`: the fixture address
`make_test_address("42", 100, 200)` with 4 estimated flats round-trips
through an empty store. -/
theorem add_address_roundtrip_witness :
    (AddressRepo.add_address Db.empty 1
        { house_number := "42", position := { x := 100, y := 200 }, confidence := 95,
          estimated_flats := some 4, circle_radius := 10,
          assigned_street_id := none }).1.estimated_flats = some 4 ∧
    AddressRepo.get_address_by_id
        (AddressRepo.add_address Db.empty 1
          { house_number := "42", position := { x := 100, y := 200 }, confidence := 95,
            estimated_flats := some 4, circle_radius := 10,
            assigned_street_id := none }).2 1
        (AddressRepo.add_address Db.empty 1
          { house_number := "42", position := { x := 100, y := 200 }, confidence := 95,
            estimated_flats := some 4, circle_radius := 10,
            assigned_street_id := none }).1.id =
      some (AddressRepo.add_address Db.empty 1
        { house_number := "42", position := { x := 100, y := 200 }, confidence := 95,
          estimated_flats := some 4, circle_radius := 10,
          assigned_street_id := none }).1 := by
  obtain ⟨-, -, -, -, h5, -, -, -, -, h10⟩ := add_address_roundtrip Db.empty 1
    { house_number := "42", position := { x := 100, y := 200 }, confidence := 95,
      estimated_flats := some 4, circle_radius := 10, assigned_street_id := none }
    (by intro v hv; simp at hv; omega)
    (by intro r hr; exact absurd hr (List.not_mem_nil r))
  exact ⟨h5, h10⟩

/-- C2: `update_address` on an address `a` matching its stored row
changes exactly the fields named in the update: unnamed plain fields
keep their value via `COALESCE`, the three-way nullable fields
`estimated_flats` and `street` distinguish leave-unchanged / set-null /
set-value, and `id` and `area_id` are never changed.  The updated row
is also what a subsequent fetch returns. -/
theorem update_address_frame (db : Db) (area_id : Int) (a : Address)
    (u : AddressUpdate) (a' : Address) (db' : Db)
    (hstored : AddressRepo.get_address_by_id db area_id a.id = some a)
    (huflats : ∀ v, u.estimated_flats = some (some v) → v < 65536)
    (hupd : AddressRepo.update_address db area_id a u = .ok (a', db')) :
    a'.id = a.id ∧
    a'.area_id = a.area_id ∧
    a'.house_number = u.house_number.getD a.house_number ∧
    a'.position = u.position.getD a.position ∧
    a'.confidence = u.confidence.getD a.confidence ∧
    a'.verified = u.verified.getD a.verified ∧
    a'.circle_radius = u.circle_radius.getD a.circle_radius ∧
    a'.estimated_flats = (match u.estimated_flats with
      | some o => o
      | none => a.estimated_flats) ∧
    a'.assigned_street_id = (match u.street with
      | some o => o.map (fun s => s.id)
      | none => a.assigned_street_id) ∧
    AddressRepo.get_address_by_id db' area_id a.id = some a' := by
  have hpred : (fun r : AddressRow => r.id == a.id && r.area_id == area_id) =
      (fun r : AddressRow => r.area_id == area_id && r.id == a.id) :=
    funext (fun r => Bool.and_comm _ _)
  simp only [AddressRepo.get_address_by_id, Option.map_eq_some'] at hstored
  obtain ⟨r₀, hfind, hdec⟩ := hstored
  simp only [AddressRepo.update_address, hpred, hfind] at hupd
  obtain ⟨ha', hdb'⟩ : _ ∧ _ := by
    have := hupd
    simp only [Except.ok.injEq, Prod.mk.injEq] at this
    exact this
  have harea : r₀.area_id = area_id := by
    have := List.find?_some hfind
    simp only [Bool.and_eq_true, beq_iff_eq] at this
    exact this.1
  have hflats_row : ∀ v ∈ a.estimated_flats, v < 65536 := by
    rw [← hdec]; exact toAddress_flats_lt r₀
  refine ⟨?_, ?_, ?_, ?_, ?_, ?_, ?_, ?_, ?_, ?_⟩
  · rw [← ha', ← hdec]; rfl
  · rw [← ha', ← hdec]; rfl
  · rw [← ha', ← hdec]
    cases hh : u.house_number <;>
      simp [AddressRepo.updated_row, AddressRow.toAddress, hh]
  · rw [← ha', ← hdec]
    cases hp : u.position with
    | none => simp [AddressRepo.updated_row, AddressRow.toAddress, hp]
    | some p =>
      cases p
      simp [AddressRepo.updated_row, AddressRow.toAddress, hp]
  · rw [← ha', ← hdec]
    cases hc : u.confidence <;>
      simp [AddressRepo.updated_row, AddressRow.toAddress, hc]
  · rw [← ha', ← hdec]
    cases hv : u.verified with
    | none => simp [AddressRepo.updated_row, AddressRow.toAddress, hv]
    | some b =>
      cases b <;> simp [AddressRepo.updated_row, AddressRow.toAddress, hv, boolToI64]
  · rw [← ha', ← hdec]
    cases hr : u.circle_radius <;>
      simp [AddressRepo.updated_row, AddressRow.toAddress, hr]
  · rw [← ha']
    cases hu : u.estimated_flats with
    | none =>
      cases hfl : a.estimated_flats with
      | none => simp [AddressRepo.updated_row, AddressRow.toAddress, hu, hfl]
      | some v =>
        have hv : v < 65536 := hflats_row v (by rw [hfl]; exact rfl)
        simp [AddressRepo.updated_row, AddressRow.toAddress, hu, hfl,
          u16_roundtrip v hv]
    | some o =>
      cases o with
      | none => simp [AddressRepo.updated_row, AddressRow.toAddress, hu]
      | some v =>
        have hv : v < 65536 := huflats v hu
        simp [AddressRepo.updated_row, AddressRow.toAddress, hu, u16_roundtrip v hv]
  · rw [← ha']
    cases hs : u.street <;>
      simp [AddressRepo.updated_row, AddressRow.toAddress, hs]
  · have hid : r₀.id = a.id := by rw [← hdec]; rfl
    rw [← hdb']
    simp only [AddressRepo.get_address_by_id]
    rw [find?_update_row db.addresses a.id area_id
      (AddressRepo.updated_row r₀ a u) r₀ hfind
      (show (AddressRepo.updated_row r₀ a u).area_id = area_id from harea)
      (show (AddressRepo.updated_row r₀ a u).id = a.id from hid)]
    rw [← ha']
    rfl

/-- Witness for `update_address_frame`: setting only `verified` on the
fixture address leaves `house_number` unchanged and flips `verified`
(the `test_update_address_verified_flag` scenario). -/
theorem update_address_frame_witness :
    ∃ (a' : Address) (db' : Db),
      AddressRepo.update_address (AddressRepo.add_address Db.empty 1
          { house_number := "99", position := { x := 500, y := 600 }, confidence := 95,
            estimated_flats := some 4, circle_radius := 10,
            assigned_street_id := none }).2 1
        (AddressRepo.add_address Db.empty 1
          { house_number := "99", position := { x := 500, y := 600 }, confidence := 95,
            estimated_flats := some 4, circle_radius := 10,
            assigned_street_id := none }).1
        { house_number := none, position := none, confidence := none,
          verified := some true, circle_radius := none,
          estimated_flats := none, street := none } = .ok (a', db') ∧
      a'.verified = true ∧ a'.house_number = "99" ∧ a'.estimated_flats = some 4 := by
  obtain ⟨-, -, -, -, -, -, -, -, -, h10⟩ := add_address_roundtrip Db.empty 1
    { house_number := "99", position := { x := 500, y := 600 }, confidence := 95,
      estimated_flats := some 4, circle_radius := 10, assigned_street_id := none }
    (by intro v hv; simp at hv; omega)
    (by intro r hr; exact absurd hr (List.not_mem_nil r))
  obtain ⟨a', db', hupd⟩ :
      ∃ a' db', AddressRepo.update_address
        (AddressRepo.add_address Db.empty 1
          { house_number := "99", position := { x := 500, y := 600 }, confidence := 95,
            estimated_flats := some 4, circle_radius := 10,
            assigned_street_id := none }).2 1
        (AddressRepo.add_address Db.empty 1
          { house_number := "99", position := { x := 500, y := 600 }, confidence := 95,
            estimated_flats := some 4, circle_radius := 10,
            assigned_street_id := none }).1
        { house_number := none, position := none, confidence := none,
          verified := some true, circle_radius := none,
          estimated_flats := none, street := none } = .ok (a', db') := ⟨_, _, rfl⟩
  obtain ⟨-, -, hhn, -, -, hver, -, hfl, -, -⟩ := update_address_frame _ 1 _
    { house_number := none, position := none, confidence := none,
      verified := some true, circle_radius := none,
      estimated_flats := none, street := none } a' db' h10
    (by intro v hv; exact absurd hv (by simp)) hupd
  exact ⟨a', db', hupd, hver, hhn, hfl⟩

/-- The color encode/decode round trip is the identity on colors whose
channels are in the `u8` range (as the Rust fields are). -/
theorem color_roundtrip (c : Color) (hr : c.r < 256) (hg : c.g < 256) (hb : c.b < 256) :
    Color.fromI64 (Color.toI64 c) = c := by
  obtain ⟨r, g, b⟩ := c
  simp only at hr hg hb
  have hgb : (g <<< 8) ||| b = 2 ^ 8 * g + b := by
    rw [Nat.shiftLeft_eq, Nat.mul_comm]
    exact (Nat.mul_add_lt_is_or hb g).symm
  have hn : ((r <<< 16) ||| (g <<< 8)) ||| b = 2 ^ 16 * r + (2 ^ 8 * g + b) := by
    rw [Nat.lor_assoc, hgb, Nat.shiftLeft_eq, Nat.mul_comm]
    exact (Nat.mul_add_lt_is_or (by omega) r).symm
  have hand : ∀ n : Nat, n &&& 255 = n % 256 := by
    intro n
    have h := Nat.and_pow_two_sub_one_eq_mod n 8
    norm_num at h
    exact h
  simp only [Color.toI64, Color.fromI64, Int.toNat_natCast, hn,
    Nat.shiftRight_eq_div_pow, hand, Color.mk.injEq]
  refine ⟨by omega, by omega, by omega⟩

/-- Decoding a list of area rows succeeds with `l'` exactly when the
rows decode pointwise to `l'`. -/
theorem decode_areas_forall₂ (l : List AreaRow) (l' : List Area) :
    AreaRepo.decode_areas l = .ok l' ↔
      List.Forall₂ (fun r a => r.toArea = .ok a) l l' := by
  constructor
  · intro h
    induction l generalizing l' with
    | nil =>
      simp only [AreaRepo.decode_areas, Except.ok.injEq] at h
      rw [← h]
      exact .nil
    | cons r rs ih =>
      simp only [AreaRepo.decode_areas] at h
      cases hra : r.toArea with
      | error e => rw [hra] at h; exact absurd h (by simp)
      | ok a =>
        rw [hra] at h
        cases hrs : AreaRepo.decode_areas rs with
        | error e => rw [hrs] at h; exact absurd h (by simp)
        | ok as =>
          rw [hrs] at h
          simp only [Except.ok.injEq] at h
          rw [← h]
          exact .cons hra (ih as hrs)
  · intro h
    induction h with
    | nil => rfl
    | cons hra _ ih =>
      simp only [AreaRepo.decode_areas, hra, ih]

/-- `AreaRow.toArea` keeps the row id. -/
theorem toArea_id (r : AreaRow) (a : Area) (h : r.toArea = .ok a) : a.id = r.id := by
  unfold AreaRow.toArea at h
  cases hs : AreaState.tryFromI64 r.state with
  | error e => rw [hs] at h; exact absurd h (by simp)
  | ok st =>
    rw [hs] at h
    simp only [Except.ok.injEq] at h
    rw [← h]

/-- Every decoded area comes from some row. -/
theorem decode_mem_right (l : List AreaRow) (l' : List Area)
    (h : List.Forall₂ (fun r a => r.toArea = .ok a) l l') :
    ∀ a ∈ l', ∃ r ∈ l, r.toArea = .ok a := by
  induction h with
  | nil => intro a ha; exact absurd ha (List.not_mem_nil a)
  | cons hra _ ih =>
    intro a ha
    rcases List.mem_cons.mp ha with ha | ha
    · exact ⟨_, List.mem_cons_self _ _, ha ▸ hra⟩
    · obtain ⟨r, hrmem, hr⟩ := ih a ha
      exact ⟨r, List.mem_cons_of_mem _ hrmem, hr⟩

/-- Every row decodes to some member of the decoded list. -/
theorem decode_mem_left (l : List AreaRow) (l' : List Area)
    (h : List.Forall₂ (fun r a => r.toArea = .ok a) l l') :
    ∀ r ∈ l, ∃ a ∈ l', r.toArea = .ok a := by
  induction h with
  | nil => intro r hr; exact absurd hr (List.not_mem_nil r)
  | cons hra _ ih =>
    intro r hr
    rcases List.mem_cons.mp hr with hr | hr
    · exact ⟨_, List.mem_cons_self _ _, hr ▸ hra⟩
    · obtain ⟨a, hamem, ha⟩ := ih r hr
      exact ⟨a, List.mem_cons_of_mem _ hamem, ha⟩

/-- Decoding a row-sorted list yields an id-sorted area list. -/
theorem decode_pairwise (l : List AreaRow) (l' : List Area)
    (hda : List.Forall₂ (fun r a => r.toArea = .ok a) l l')
    (hp : l.Pairwise (fun a b => a.id ≤ b.id)) :
    l'.Pairwise (fun a b => a.id ≤ b.id) := by
  induction hda with
  | nil => exact .nil
  | cons hra hrest ih =>
    rw [List.pairwise_cons] at hp
    refine List.Pairwise.cons ?_ (ih hp.2)
    intro b hb
    obtain ⟨rb, hrbmem, hrb⟩ := decode_mem_right _ _ hrest b hb
    rw [toArea_id _ _ hra, toArea_id _ _ hrb]
    exact hp.1 rb hrbmem

/-- A list of rows that all decode has a successful decode. -/
theorem decode_areas_total (l : List AreaRow)
    (h : ∀ r ∈ l, ∃ a, r.toArea = .ok a) :
    ∃ l', AreaRepo.decode_areas l = .ok l' := by
  induction l with
  | nil => exact ⟨[], rfl⟩
  | cons r rs ih =>
    obtain ⟨a, ha⟩ := h r (List.mem_cons_self r rs)
    obtain ⟨as, has⟩ := ih (fun q hq => h q (List.mem_cons_of_mem r hq))
    exact ⟨a :: as, by simp only [AreaRepo.decode_areas, ha, has]⟩

/-- The inserted vertex rows are empty exactly when the replacing point
list is. -/
theorem isEmpty_enum_rows (oid : Int) (ps : List Point) :
    (ps.enum.map (fun ip =>
      ({ owner_id := oid, position := ip.1, x := ip.2.x, y := ip.2.y } : VertexRow))).isEmpty =
      ps.isEmpty := by
  cases ps <;> rfl

/-- C7: a successful `add_area` appends one `area` row holding the
supplied name, the encoded supplied color and `state =
i64::from(Imported)`; afterwards the new Area — decoded back with the
supplied name/color and state `Imported` — appears in `get_areas`,
and every successful `get_areas` result is ordered by ascending id.
(The channel bounds are the Rust `u8` ranges.) -/
theorem add_area_spec (st : ProjectSt) (n : NewArea) (id : Int) (st' : ProjectSt)
    (hr : n.color.r < 256) (hg : n.color.g < 256) (hb : n.color.b < 256)
    (hok : AreaRepo.add_area st n = some (id, st')) :
    (∃ fname : ImgFname, id = st.db.next_area_id ∧
      st'.db.areas = st.db.areas ++
        [{ id := st.db.next_area_id, name := n.name, color := Color.toI64 n.color,
           image_fname := fname, state := AreaState.toI64 .imported }]) ∧
    (∀ l₀, AreaRepo.get_areas st.db = .ok l₀ →
      ∃ l, AreaRepo.get_areas st'.db = .ok l ∧
        ({ id := id, name := n.name, color := n.color, state := .imported } : Area) ∈ l) ∧
    (∀ (db : Db) (l : List Area), AreaRepo.get_areas db = .ok l →
      l.Pairwise (fun a b => a.id ≤ b.id)) := by
  cases hsi : ProjectState.store_area_image st.store n.image_path with
  | none =>
    rw [AreaRepo.add_area, hsi] at hok
    exact absurd hok (by simp)
  | some pr =>
    obtain ⟨fname, store'⟩ := pr
    rw [AreaRepo.add_area, hsi] at hok
    simp only [Option.some.injEq, Prod.mk.injEq] at hok
    obtain ⟨hid, hst'⟩ := hok
    have hrow_dec : ({ id := st.db.next_area_id, name := n.name,
                       color := Color.toI64 n.color, image_fname := fname,
                       state := AreaState.toI64 .imported } : AreaRow).toArea =
        .ok { id := st.db.next_area_id, name := n.name, color := n.color,
              state := .imported } := by
      simp [AreaRow.toArea, AreaState.toI64, AreaState.tryFromI64,
        color_roundtrip n.color hr hg hb]
    refine ⟨⟨fname, hid.symm, by rw [← hst']⟩, ?_, ?_⟩
    · intro l₀ hl₀
      have hareas : st'.db.areas = st.db.areas ++
          [{ id := st.db.next_area_id, name := n.name, color := Color.toI64 n.color,
             image_fname := fname, state := AreaState.toI64 .imported }] := by
        rw [← hst']
      have hfa₀ := (decode_areas_forall₂ _ _).mp hl₀
      have hall : ∀ r ∈ List.insertionSort (fun a b : AreaRow => a.id ≤ b.id)
          st'.db.areas, ∃ a, r.toArea = .ok a := by
        intro r hrm
        have hrm' : r ∈ st'.db.areas :=
          (List.perm_insertionSort (fun a b : AreaRow => a.id ≤ b.id) _).mem_iff.mp hrm
        rw [hareas] at hrm'
        rcases List.mem_append.mp hrm' with hrm' | hrm'
        · have : r ∈ List.insertionSort (fun a b : AreaRow => a.id ≤ b.id) st.db.areas :=
            (List.perm_insertionSort (fun a b : AreaRow => a.id ≤ b.id) _).mem_iff.mpr hrm'
          obtain ⟨a, _, ha⟩ := decode_mem_left _ _ hfa₀ r this
          exact ⟨a, ha⟩
        · simp only [List.mem_singleton] at hrm'
          subst hrm'
          exact ⟨_, hrow_dec⟩
      obtain ⟨l, hl⟩ := decode_areas_total _ hall
      refine ⟨l, hl, ?_⟩
      have hfa := (decode_areas_forall₂ _ _).mp hl
      have hrowmem : ({ id := st.db.next_area_id, name := n.name,
                        color := Color.toI64 n.color, image_fname := fname,
                        state := AreaState.toI64 .imported } : AreaRow) ∈
          List.insertionSort (fun a b : AreaRow => a.id ≤ b.id) st'.db.areas := by
        refine (List.perm_insertionSort (fun a b : AreaRow => a.id ≤ b.id) _).mem_iff.mpr ?_
        rw [hareas]
        exact List.mem_append.mpr (Or.inr (List.mem_singleton.mpr rfl))
      obtain ⟨a, hamem, ha⟩ := decode_mem_left _ _ hfa _ hrowmem
      rw [hrow_dec] at ha
      simp only [Except.ok.injEq] at ha
      rw [hid] at ha
      rw [ha]
      exact hamem
    · intro db l hgl
      exact decode_pairwise _ _ ((decode_areas_forall₂ _ _).mp hgl)
        (List.sorted_insertionSort _ db.areas)

/-- Witness for `add_area_spec`: adding "Test Area" in red to an empty
project yields an area list containing exactly that Area with state
`Imported`. -/
theorem add_area_spec_witness :
    ∃ (id : Int) (st' : ProjectSt),
      AreaRepo.add_area
          { db := Db.empty, store := { images := [], uuid_counter := 0 } }
          { name := "Test Area", color := { r := 255, g := 0, b := 0 },
            image_path := { extension := some { utf8 := some "png" } } } =
        some (id, st') ∧
      ∃ l, AreaRepo.get_areas st'.db = .ok l ∧
        ({ id := id, name := "Test Area", color := { r := 255, g := 0, b := 0 },
           state := .imported } : Area) ∈ l := by
  obtain ⟨id, st', hok⟩ :
      ∃ id st', AreaRepo.add_area
          { db := Db.empty, store := { images := [], uuid_counter := 0 } }
          { name := "Test Area", color := { r := 255, g := 0, b := 0 },
            image_path := { extension := some { utf8 := some "png" } } } =
        some (id, st') := ⟨_, _, rfl⟩
  obtain ⟨-, h2, -⟩ := add_area_spec _ _ id st'
    (by decide) (by decide) (by decide) hok
  exact ⟨id, st', hok, h2 [] rfl⟩

/-- C4: `draw_street_polyline` and `set_team_bounds` atomically replace
the owner's ordered vertex set: after the call the owner's rows are
exactly the new points indexed 0,1,2,…, every other owner's rows are
untouched (the single state-to-state function models the enclosing
transaction), and the matching getter returns exactly the new points in
order (an empty replacement reads back as the absent polyline,
and `set_team_bounds` returns the new boundary). -/
theorem polyline_boundary_replace (db : Db) (street : Street) (team : Team)
    (ps qs : List Point) :
    ((StreetRepo.draw_street_polyline db street ps).street_polyline_vertices.filter
        (fun r => r.owner_id == street.id) =
      ps.enum.map (fun ip =>
        ({ owner_id := street.id, position := ip.1, x := ip.2.x, y := ip.2.y } : VertexRow))) ∧
    (∀ s : Int, s ≠ street.id →
      (StreetRepo.draw_street_polyline db street ps).street_polyline_vertices.filter
          (fun r => r.owner_id == s) =
        db.street_polyline_vertices.filter (fun r => r.owner_id == s)) ∧
    (((StreetRepo.get_street_polyline (StreetRepo.draw_street_polyline db street ps)
        street).map StreetPolyline.points).getD [] = ps) ∧
    (ps ≠ [] → StreetRepo.get_street_polyline (StreetRepo.draw_street_polyline db street ps)
        street = some { points := ps }) ∧
    ((TeamRepo.set_team_bounds db team qs).1 = { boundary := qs }) ∧
    ((TeamRepo.set_team_bounds db team qs).2.team_bounds_vertices.filter
        (fun r => r.owner_id == team.id) =
      qs.enum.map (fun ip =>
        ({ owner_id := team.id, position := ip.1, x := ip.2.x, y := ip.2.y } : VertexRow))) ∧
    (∀ t : Int, t ≠ team.id →
      (TeamRepo.set_team_bounds db team qs).2.team_bounds_vertices.filter
          (fun r => r.owner_id == t) =
        db.team_bounds_vertices.filter (fun r => r.owner_id == t)) ∧
    (((TeamRepo.get_team_bounds (TeamRepo.set_team_bounds db team qs).2 team).map
        TeamBounds.boundary).getD [] = qs) ∧
    (qs ≠ [] → TeamRepo.get_team_bounds (TeamRepo.set_team_bounds db team qs).2 team =
      some { boundary := qs }) := by
  have hmemS : ∀ r ∈ ps.enum.map (fun ip =>
      ({ owner_id := street.id, position := ip.1, x := ip.2.x, y := ip.2.y } : VertexRow)),
      r.owner_id = street.id := by
    intro r hr
    obtain ⟨ip, _, hip⟩ := List.mem_map.mp hr
    rw [← hip]
  have hmemT : ∀ r ∈ qs.enum.map (fun ip =>
      ({ owner_id := team.id, position := ip.1, x := ip.2.x, y := ip.2.y } : VertexRow)),
      r.owner_id = team.id := by
    intro r hr
    obtain ⟨ip, _, hip⟩ := List.mem_map.mp hr
    rw [← hip]
  refine ⟨?_, ?_, ?_, ?_, rfl, ?_, ?_, ?_, ?_⟩
  · exact filter_replace_self db.street_polyline_vertices _ street.id hmemS
  · intro s hs
    exact filter_replace_other db.street_polyline_vertices _ street.id s hmemS hs
  · simp only [StreetRepo.get_street_polyline, StreetRepo.draw_street_polyline]
    rw [records_after_replace db.street_polyline_vertices street.id ps]
    cases ps with
    | nil => rfl
    | cons p ps' =>
      rw [isEmpty_enum_rows street.id (p :: ps')]
      simp only [List.isEmpty_cons, Bool.false_eq_true, if_false, Option.map_some',
        Option.getD_some]
      exact map_back_enum_rows street.id (p :: ps')
  · intro hne
    cases ps with
    | nil => exact absurd rfl hne
    | cons p ps' =>
      simp only [StreetRepo.get_street_polyline, StreetRepo.draw_street_polyline]
      rw [records_after_replace db.street_polyline_vertices street.id (p :: ps')]
      rw [isEmpty_enum_rows street.id (p :: ps')]
      simp only [List.isEmpty_cons, Bool.false_eq_true, if_false]
      rw [map_back_enum_rows street.id (p :: ps')]
  · exact filter_replace_self db.team_bounds_vertices _ team.id hmemT
  · intro t ht
    exact filter_replace_other db.team_bounds_vertices _ team.id t hmemT ht
  · simp only [TeamRepo.get_team_bounds, TeamRepo.set_team_bounds]
    rw [records_after_replace db.team_bounds_vertices team.id qs]
    cases qs with
    | nil => rfl
    | cons q qs' =>
      rw [isEmpty_enum_rows team.id (q :: qs')]
      simp only [List.isEmpty_cons, Bool.false_eq_true, if_false, Option.map_some',
        Option.getD_some]
      exact map_back_enum_rows team.id (q :: qs')
  · intro hne
    cases qs with
    | nil => exact absurd rfl hne
    | cons q qs' =>
      simp only [TeamRepo.get_team_bounds, TeamRepo.set_team_bounds]
      rw [records_after_replace db.team_bounds_vertices team.id (q :: qs')]
      rw [isEmpty_enum_rows team.id (q :: qs')]
      simp only [List.isEmpty_cons, Bool.false_eq_true, if_false]
      rw [map_back_enum_rows team.id (q :: qs')]

/-- Witness for `polyline_boundary_replace`: drawing a two-point
polyline over a street that already has one stale vertex reads back
exactly the two new points, and the team-bounds getter mirrors it. -/
theorem polyline_boundary_replace_witness :
    StreetRepo.get_street_polyline
        (StreetRepo.draw_street_polyline
          { Db.empty with street_polyline_vertices :=
              [{ owner_id := 1, position := 0, x := 9, y := 9 }] }
          { id := 1, name := none, verified := false }
          [{ x := 1, y := 2 }, { x := 3, y := 4 }])
        { id := 1, name := none, verified := false } =
      some { points := [{ x := 1, y := 2 }, { x := 3, y := 4 }] } ∧
    TeamRepo.get_team_bounds
        (TeamRepo.set_team_bounds Db.empty { id := 2, number := 0 }
          [{ x := 5, y := 6 }]).2
        { id := 2, number := 0 } =
      some { boundary := [{ x := 5, y := 6 }] } := by
  obtain ⟨-, -, -, h4, -, -, -, -, h9⟩ := polyline_boundary_replace
    { Db.empty with street_polyline_vertices :=
        [{ owner_id := 1, position := 0, x := 9, y := 9 }] }
    { id := 1, name := none, verified := false }
    { id := 2, number := 0 }
    [{ x := 1, y := 2 }, { x := 3, y := 4 }]
    [{ x := 5, y := 6 }]
  exact ⟨h4 (by decide), h9 (by decide)⟩

/-- C1: `TeamRepository::add_address` under the spec-modelled
`team_assignment` constraints.  With `tRow`/`aRow` the unique team and
address rows of `t` and `a`: the insert fails with the foreign-key
error when the two rows live in different Areas; it fails with the
uniqueness error when the address already has an assignment within the
handle's Area; it succeeds, appending exactly one assignment row scoped
to the handle's Area, when both rows are in the handle's Area and the
address has no existing assignment; and it preserves "each address is
assigned to at most one team" (at most one assignment row per
address id). -/
theorem team_add_address_constraints
    (db : Db) (area_id : Int) (team : Team) (address : Address)
    (tRow : TeamRow) (aRow : AddressRow)
    (hT : tRow ∈ db.teams) (hTid : tRow.id = team.id)
    (hTuniq : ∀ r ∈ db.teams, r.id = team.id → r = tRow)
    (hA : aRow ∈ db.addresses) (hAid : aRow.id = address.id)
    (hAuniq : ∀ r ∈ db.addresses, r.id = address.id → r = aRow) :
    (tRow.area_id ≠ aRow.area_id →
      TeamRepo.add_address db area_id team address = .error .foreignKeyViolation) ∧
    (tRow.area_id = area_id → aRow.area_id = area_id →
      (∃ s ∈ db.team_assignment, s.address_id = address.id ∧ s.area_id = area_id) →
      TeamRepo.add_address db area_id team address = .error .uniqueViolation) ∧
    (tRow.area_id = area_id → aRow.area_id = area_id →
      (∀ s ∈ db.team_assignment, s.address_id ≠ address.id) →
      TeamRepo.add_address db area_id team address =
        .ok { db with team_assignment := db.team_assignment ++
                [{ team_id := team.id, address_id := address.id, area_id := area_id }] }) ∧
    ((∀ s₁ ∈ db.team_assignment, ∀ s₂ ∈ db.team_assignment,
        s₁.address_id = s₂.address_id → s₁ = s₂) →
      ∀ db', TeamRepo.add_address db area_id team address = .ok db' →
      ∀ s₁ ∈ db'.team_assignment, ∀ s₂ ∈ db'.team_assignment,
        s₁.address_id = s₂.address_id → s₁ = s₂) := by
  refine ⟨?_, ?_, ?_, ?_⟩
  · intro hne
    by_cases hta : tRow.area_id = area_id
    · have haa : aRow.area_id ≠ area_id := fun h => hne (hta.trans h.symm)
      have hc1 : db.teams.any (fun r => r.id == team.id && r.area_id == area_id) = true := by
        simp only [List.any_eq_true, Bool.and_eq_true, beq_iff_eq]
        exact ⟨tRow, hT, hTid, hta⟩
      have hc2 : db.addresses.any (fun r => r.id == address.id && r.area_id == area_id) = false := by
        simp only [List.any_eq_false, Bool.and_eq_true, beq_iff_eq, not_and]
        intro r hr hrid
        exact fun h => haa ((hAuniq r hr hrid ▸ h : aRow.area_id = area_id))
      simp [TeamRepo.add_address, hc1, hc2]
    · have hc1 : db.teams.any (fun r => r.id == team.id && r.area_id == area_id) = false := by
        simp only [List.any_eq_false, Bool.and_eq_true, beq_iff_eq, not_and]
        intro r hr hrid
        exact fun h => hta ((hTuniq r hr hrid ▸ h : tRow.area_id = area_id))
      simp [TeamRepo.add_address, hc1]
  · intro hta haa ⟨s, hs, hsid, _⟩
    have hc1 : db.teams.any (fun r => r.id == team.id && r.area_id == area_id) = true := by
      simp only [List.any_eq_true, Bool.and_eq_true, beq_iff_eq]
      exact ⟨tRow, hT, hTid, hta⟩
    have hc2 : db.addresses.any (fun r => r.id == address.id && r.area_id == area_id) = true := by
      simp only [List.any_eq_true, Bool.and_eq_true, beq_iff_eq]
      exact ⟨aRow, hA, hAid, haa⟩
    have hc3 : db.team_assignment.any (fun r => r.address_id == address.id) = true := by
      simp only [List.any_eq_true, beq_iff_eq]
      exact ⟨s, hs, hsid⟩
    simp [TeamRepo.add_address, hc1, hc2, hc3]
  · intro hta haa hnone
    have hc1 : db.teams.any (fun r => r.id == team.id && r.area_id == area_id) = true := by
      simp only [List.any_eq_true, Bool.and_eq_true, beq_iff_eq]
      exact ⟨tRow, hT, hTid, hta⟩
    have hc2 : db.addresses.any (fun r => r.id == address.id && r.area_id == area_id) = true := by
      simp only [List.any_eq_true, Bool.and_eq_true, beq_iff_eq]
      exact ⟨aRow, hA, hAid, haa⟩
    have hc3 : db.team_assignment.any (fun r => r.address_id == address.id) = false := by
      simp only [List.any_eq_false, beq_iff_eq]
      exact hnone
    simp [TeamRepo.add_address, hc1, hc2, hc3]
  · intro huniq db' hok
    revert hok
    unfold TeamRepo.add_address
    by_cases hc1 : db.teams.any (fun r => r.id == team.id && r.area_id == area_id) = true
    case neg => simp [Bool.eq_false_iff.mpr hc1]
    by_cases hc2 : db.addresses.any (fun r => r.id == address.id && r.area_id == area_id) = true
    case neg => simp [hc1, Bool.eq_false_iff.mpr hc2]
    by_cases hc3 : db.team_assignment.any (fun r => r.address_id == address.id) = true
    · simp [hc1, hc2, hc3]
    · have hnone : ∀ s ∈ db.team_assignment, s.address_id ≠ address.id := by
        have := Bool.eq_false_iff.mpr hc3
        simpa only [List.any_eq_false, beq_iff_eq] using this
      intro hdb'
      simp only [hc1, hc2, Bool.eq_false_iff.mpr hc3, Bool.not_true, Bool.not_false,
        Bool.false_eq_true, if_false, if_true, reduceIte, Except.ok.injEq] at hdb'
      subst hdb'
      intro s₁ hs₁ s₂ hs₂ heq
      simp only [List.mem_append, List.mem_singleton] at hs₁ hs₂
      rcases hs₁ with hs₁ | hs₁ <;> rcases hs₂ with hs₂ | hs₂
      · exact huniq s₁ hs₁ s₂ hs₂ heq
      · exact absurd (heq.trans (by rw [hs₂])) (hnone s₁ hs₁)
      · exact absurd ((heq.symm).trans (by rw [hs₁])) (hnone s₂ hs₂)
      · rw [hs₁, hs₂]

/-- Witness for `team_add_address_constraints`: with one team and one
address in area 1 and no existing assignment, the insert succeeds with
exactly one new assignment row. -/
theorem team_add_address_constraints_witness :
    TeamRepo.add_address
        { Db.empty with
          teams := [{ id := 1, area_id := 1, num := 0 }]
          addresses := [{ id := 1, area_id := 1, house_number := "42", x := 0, y := 0,
                          confidence := 0, verified := 0, estimated_flats := none,
                          circle_radius := 10, street_id := none }] }
        1 { id := 1, number := 0 }
        { id := 1, area_id := 1, house_number := "42", position := { x := 0, y := 0 },
          confidence := 0, verified := false, estimated_flats := none,
          circle_radius := 10, assigned_street_id := none } =
      .ok { Db.empty with
            teams := [{ id := 1, area_id := 1, num := 0 }]
            addresses := [{ id := 1, area_id := 1, house_number := "42", x := 0, y := 0,
                            confidence := 0, verified := 0, estimated_flats := none,
                            circle_radius := 10, street_id := none }]
            team_assignment := [] ++ [{ team_id := 1, address_id := 1, area_id := 1 }] } := by
  have h := team_add_address_constraints
    { Db.empty with
      teams := [{ id := 1, area_id := 1, num := 0 }]
      addresses := [{ id := 1, area_id := 1, house_number := "42", x := 0, y := 0,
                      confidence := 0, verified := 0, estimated_flats := none,
                      circle_radius := 10, street_id := none }] }
    1 { id := 1, number := 0 }
    { id := 1, area_id := 1, house_number := "42", position := { x := 0, y := 0 },
      confidence := 0, verified := false, estimated_flats := none,
      circle_radius := 10, assigned_street_id := none }
    { id := 1, area_id := 1, num := 0 }
    { id := 1, area_id := 1, house_number := "42", x := 0, y := 0,
      confidence := 0, verified := 0, estimated_flats := none,
      circle_radius := 10, street_id := none }
    (by decide) rfl (by intro r hr _; simpa using hr)
    (by decide) rfl (by intro r hr _; simpa using hr)
  exact h.2.2.1 rfl rfl (by intro s hs; exact absurd hs (List.not_mem_nil s))

/-- Witness for `get_by_id_absent_none_but_bound_area_errors` on an
empty store: every lookup of id 1 in area 1 is `none`, and the bound
`get_area` is the hard not-found error. -/
theorem get_by_id_absent_witness :
    TeamRepo.get_team_by_id Db.empty 1 1 = none ∧
    StreetRepo.get_street_by_id Db.empty 1 1 = none ∧
    AddressRepo.get_address_by_id Db.empty 1 1 = none ∧
    BoundAreaRepo.get_area Db.empty 1 = .error (.areaNotFound 1) := by
  obtain ⟨h1, h2, h3, h4⟩ := get_by_id_absent_none_but_bound_area_errors
  exact ⟨h1 Db.empty 1 1 (by intro r h; exact absurd h (List.not_mem_nil r)),
    h2 Db.empty 1 1 (by intro r h; exact absurd h (List.not_mem_nil r)),
    h3 Db.empty 1 1 (by intro r h; exact absurd h (List.not_mem_nil r)),
    h4 Db.empty 1 (by intro r h; exact absurd h (List.not_mem_nil r))⟩

/-- C5: opening a project fails when the file is absent and the parent
directory does not exist; with the parent present an absent file yields
a fresh empty archive, which opens to the empty layout being created;
an unpacked archive with exactly one of the database file and the
images directory is a corrupt project; both present or both absent
succeed. -/
theorem projectState_new_cases (inp : OpenInput) :
    (inp.file_exists = false → inp.parent_is_dir = false →
      ProjectState.new inp = .error .missingParent) ∧
    (inp.file_exists = false → inp.parent_is_dir = true →
      ProjectState.new inp = .ok { has_db := true, has_images := true }) ∧
    (inp.file_exists = true → inp.has_db_file = true → inp.has_images_dir = false →
      ProjectState.new inp = .error .corruptNoImages) ∧
    (inp.file_exists = true → inp.has_db_file = false → inp.has_images_dir = true →
      ProjectState.new inp = .error .corruptNoDb) ∧
    (inp.file_exists = true → inp.has_db_file = inp.has_images_dir →
      ProjectState.new inp = .ok { has_db := true, has_images := true }) := by
  obtain ⟨f, p, d, i⟩ := inp
  cases f <;> cases p <;> cases d <;> cases i <;> simp [ProjectState.new]

/-- Witness for `projectState_new_cases` at a concrete input: an absent
file whose parent directory exists opens to the freshly created empty
layout. -/
theorem projectState_new_cases_witness :
    ProjectState.new { file_exists := false, parent_is_dir := true,
                       has_db_file := false, has_images_dir := false } =
      .ok { has_db := true, has_images := true } :=
  (projectState_new_cases _).2.1 rfl rfl

/-- C9: `store_area_image` panics (models: returns `none`) exactly when
the source path has no extension or the extension is not valid UTF-8;
otherwise the image is stored under `"{fresh uuid}.{ext}"`, and —
provided every existing image filename was produced by an earlier
`Uuid::new_v4()` call — the new name collides with no existing one. -/
theorem store_area_image_spec (st : ImageStore) (p : ImgPath) :
    (p.extension.bind (fun ext => ext.utf8) = none →
      ProjectState.store_area_image st p = none) ∧
    (∀ ext_str, p.extension.bind (fun ext => ext.utf8) = some ext_str →
      (∀ f ∈ st.images, f.uuid < st.uuid_counter) →
      ∃ st', ProjectState.store_area_image st p =
          some ({ uuid := st.uuid_counter, ext := ext_str }, st') ∧
        ({ uuid := st.uuid_counter, ext := ext_str } : ImgFname) ∉ st.images ∧
        st'.images = st.images ++ [{ uuid := st.uuid_counter, ext := ext_str }] ∧
        (∀ f ∈ st'.images, f.uuid < st'.uuid_counter)) := by
  constructor
  · intro h
    simp [ProjectState.store_area_image, h]
  · intro ext_str h hfresh
    refine ⟨{ images := st.images ++ [{ uuid := st.uuid_counter, ext := ext_str }],
              uuid_counter := st.uuid_counter + 1 }, ?_, ?_, rfl, ?_⟩
    · simp [ProjectState.store_area_image, h]
    · intro hmem
      exact absurd rfl (Nat.ne_of_lt (hfresh _ hmem))
    · intro f hf
      rcases List.mem_append.mp hf with hf | hf
      · exact Nat.lt_succ_of_lt (hfresh _ hf)
      · simp only [List.mem_singleton] at hf
        subst hf
        exact Nat.lt_succ_self _

/-- Witness for `store_area_image_spec`: a `.png` path stored into an
empty image store gets the name `0.png` and no collision. -/
theorem store_area_image_spec_witness :
    ∃ st', ProjectState.store_area_image { images := [], uuid_counter := 0 }
        { extension := some { utf8 := some "png" } } =
        some ({ uuid := 0, ext := "png" }, st') ∧
      ({ uuid := 0, ext := "png" } : ImgFname) ∉ ([] : List ImgFname) ∧
      st'.images = [] ++ [{ uuid := 0, ext := "png" }] ∧
      (∀ f ∈ st'.images, f.uuid < st'.uuid_counter) :=
  (store_area_image_spec { images := [], uuid_counter := 0 }
      { extension := some { utf8 := some "png" } }).2
    "png" rfl (by intro f hf; simp at hf)

end Addrslips
